import Mathlib

/-!
Shallow embedding of the badge and leaderboard aggregation logic of
`lms/djangoapps/course_home_api` (files `badge/views.py` and
`leaderboard/views.py`).

Conventions of the embedding:
* timestamps (datetimes) are `Nat`; Python datetimes are always truthy, so a
  possibly-`None` datetime becomes `Option Nat`;
* float scores and percentages are `ℚ`;
* Python's `round(x, n)` (round-half-to-even on the shifted value) is
  `pyRound1` / `pyRound2`;
* Python dicts keyed by block-id strings are association lists
  `List (String × _)` queried with `List.lookup`;
* Python's stable `list.sort(key=...)` is `stableSort le`, a structural
  stable insertion sort by the boolean comparison `le` derived from the key;
* the canonical block-key reparser `UsageKey.from_string` (an external
  library that may raise) is an explicit parameter
  `normKey : String → Option String`, `none` meaning the parse raised.
-/

/-- Python's banker's rounding of a rational to an integer
(round half to even, as `round` does on exact values). -/
def pyRoundInt (q : ℚ) : ℤ :=
  let f := ⌊q⌋
  let r := q - f
  if r < 1/2 then f
  else if 1/2 < r then f + 1
  else if f % 2 = 0 then f else f + 1

/-- Python's `round(q, 1)`. -/
def pyRound1 (q : ℚ) : ℚ := (pyRoundInt (q * 10) : ℚ) / 10

/-- Python's `round(q, 2)`. -/
def pyRound2 (q : ℚ) : ℚ := (pyRoundInt (q * 100) : ℚ) / 100

/-- A course block as served by the block-tree fetcher (`get_blocks`) with the
fields requested by `BadgeView._get_course_structure`: `type`, `display_name`,
`children`, and the inline `complete` flag (`block.get('complete', False)`). -/
structure Block where
  blockType : String
  displayName : String
  children : List String
  complete : Bool
deriving Repr, DecidableEq

/-- The value returned by `BadgeView._get_course_structure`:
a block map plus a root id (`None` when absent). -/
structure BlocksData where
  blocks : List (String × Block)
  root : Option String
deriving Repr, DecidableEq

/-- `BadgeView._get_course_structure`: the upstream fetch either raises
(`Except.error`) or returns blocks and a root; any exception, a missing root,
or a root that is not a key of the block map all collapse to the empty
`{'blocks': {}, 'root': None}` result. -/
def get_course_structure (fetch : Except String BlocksData) : BlocksData :=
  match fetch with
  | .error _ => ⟨[], none⟩
  | .ok bd =>
    match bd.root with
    | none => ⟨[], none⟩
    | some r => if (bd.blocks.lookup r).isSome then bd else ⟨[], none⟩

/-- The per-unit summary built by `BadgeView._build_unit_data`. -/
structure UnitData where
  unit_id : String
  unit_name : String
  is_completed : Bool
  completed_at : Option Nat
deriving Repr, DecidableEq

/-- `BadgeView._build_unit_data`: inline `complete` flag first; otherwise look
the identifier up in the completion dict by its original string form, then —
when canonical reparsing succeeds — by its normalized form; a parse failure is
a lookup miss.  A unit completed via the inline flag still reads its timestamp
from the dict (either key form) in a second step. -/
def build_unit_data (normKey : String → Option String)
    (completions : List (String × Nat)) (unitId : String) (blk : Block) :
    UnitData :=
  let step1 : Bool × Option Nat :=
    if blk.complete then (true, none)
    else
      match completions.lookup unitId with
      | some t => (true, some t)
      | none =>
        match normKey unitId with
        | some nk =>
          match completions.lookup nk with
          | some t => (true, some t)
          | none => (false, none)
        | none => (false, none)
  let isCompleted := step1.1
  let completedAt :=
    if isCompleted && step1.2.isNone then
      match completions.lookup unitId with
      | some t => some t
      | none =>
        match normKey unitId with
        | some nk => completions.lookup nk
        | none => none
    else step1.2
  { unit_id := unitId, unit_name := blk.displayName,
    is_completed := isCompleted, completed_at := completedAt }

/-- The per-section summary built by `BadgeView._build_section_data`. -/
structure SectionData where
  section_id : String
  section_name : String
  is_completed : Bool
  completed_at : Option Nat
  total_units : Nat
  completed_units : Nat
  units : List UnitData
deriving Repr, DecidableEq

/-- The per-chapter summary built by `BadgeView._build_chapter_data`. -/
structure ChapterData where
  chapter_id : String
  chapter_name : String
  is_completed : Bool
  completed_at : Option Nat
  total_sections : Nat
  completed_sections : Nat
  sections : List SectionData
deriving Repr, DecidableEq

/-- The child-filtering performed by every `_build_*` loop: keep the child ids
that are keys of the block map and whose block has the wanted type
(`continue` otherwise). -/
def qualifyingChildren (blocks : List (String × Block)) (btype : String)
    (childIds : List String) : List (String × Block) :=
  childIds.filterMap fun cid =>
    match blocks.lookup cid with
    | some b => if b.blockType == btype then some (cid, b) else none
    | none => none

/-- The latest-completion-time accumulator used by both
`_build_section_data` and `_build_chapter_data`: a completed child with a
timestamp strictly later than the accumulator replaces it. -/
def trackLatest (acc : Option Nat) (isCompleted : Bool) (t : Option Nat) :
    Option Nat :=
  if isCompleted then
    match t with
    | some time =>
      match acc with
      | none => some time
      | some a => if time > a then some time else some a
    | none => acc
  else acc

/-- The `units` list assembled by the loop of `BadgeView._build_section_data`:
one `UnitData` per qualifying `vertical` child. -/
def section_units (normKey : String → Option String)
    (blocks : List (String × Block)) (completions : List (String × Nat))
    (sectionBlk : Block) : List UnitData :=
  (qualifyingChildren blocks "vertical" sectionBlk.children).map
    fun p => build_unit_data normKey completions p.1 p.2

/-- `BadgeView._build_section_data`: build the qualifying `vertical` children,
count the completed ones, track the latest completion time of completed units,
and mark the section completed iff it has at least one unit and all are
completed. -/
def build_section_data (normKey : String → Option String)
    (blocks : List (String × Block)) (completions : List (String × Nat))
    (sectionId : String) (sectionBlk : Block) : SectionData :=
  let units := section_units normKey blocks completions sectionBlk
  let completedCount := (units.filter (·.is_completed)).length
  let sectionAt :=
    units.foldl (fun acc u => trackLatest acc u.is_completed u.completed_at) none
  { section_id := sectionId, section_name := sectionBlk.displayName,
    is_completed := decide (0 < units.length) && decide (completedCount = units.length),
    completed_at := sectionAt,
    total_units := units.length, completed_units := completedCount,
    units := units }

/-- The `sections` list assembled by the loop of
`BadgeView._build_chapter_data`: one `SectionData` per qualifying
`sequential` child. -/
def chapter_sections (normKey : String → Option String)
    (blocks : List (String × Block)) (completions : List (String × Nat))
    (chapterBlk : Block) : List SectionData :=
  (qualifyingChildren blocks "sequential" chapterBlk.children).map
    fun p => build_section_data normKey blocks completions p.1 p.2

/-- `BadgeView._build_chapter_data`: the same shape one level up, over the
qualifying `sequential` children. -/
def build_chapter_data (normKey : String → Option String)
    (blocks : List (String × Block)) (completions : List (String × Nat))
    (chapterId : String) (chapterBlk : Block) : ChapterData :=
  let sections := chapter_sections normKey blocks completions chapterBlk
  let completedCount := (sections.filter (·.is_completed)).length
  let chapterAt :=
    sections.foldl (fun acc s => trackLatest acc s.is_completed s.completed_at) none
  { chapter_id := chapterId, chapter_name := chapterBlk.displayName,
    is_completed := decide (0 < sections.length) && decide (completedCount = sections.length),
    completed_at := chapterAt,
    total_sections := sections.length, completed_sections := completedCount,
    sections := sections }

/-- The `summary` object of `BadgeView._build_badge_data`. -/
structure BadgeSummary where
  total_chapters : Nat
  completed_chapters : Nat
  total_sections : Nat
  completed_sections : Nat
  total_units : Nat
  completed_units : Nat
  completion_percentage : ℚ
deriving Repr, DecidableEq

/-- The whole value returned by `BadgeView._build_badge_data`. -/
structure BadgeData where
  summary : BadgeSummary
  chapters : List ChapterData
deriving Repr, DecidableEq

/-- The degenerate rollup returned when the root is absent or not a key of
the block map: all six counts zero, `completion_percentage` `0.0`, no
chapters. -/
def emptyBadgeData : BadgeData :=
  { summary :=
      { total_chapters := 0
        completed_chapters := 0
        total_sections := 0
        completed_sections := 0
        total_units := 0
        completed_units := 0
        completion_percentage := 0 }
    chapters := [] }

/-- `BadgeView._build_badge_data`: guard the degenerate case, then fold the
qualifying `chapter` children of the root, summing the per-chapter and
per-section counts, and compute the percentage as
`round(completed_units / total_units * 100 if total_units > 0 else 0.0, 1)`. -/
def build_badge_data (normKey : String → Option String) (bd : BlocksData)
    (completions : List (String × Nat)) : BadgeData :=
  match bd.root with
  | none => emptyBadgeData
  | some rootId =>
    match bd.blocks.lookup rootId with
    | none => emptyBadgeData
    | some rootBlock =>
      let chapters := (qualifyingChildren bd.blocks "chapter" rootBlock.children).map
        fun p => build_chapter_data normKey bd.blocks completions p.1 p.2
      let totalUnits := (chapters.map fun c => (c.sections.map (·.total_units)).sum).sum
      let completedUnits := (chapters.map fun c => (c.sections.map (·.completed_units)).sum).sum
      { summary :=
          { total_chapters := chapters.length
            completed_chapters := (chapters.filter (·.is_completed)).length
            total_sections := (chapters.map (·.total_sections)).sum
            completed_sections := (chapters.map (·.completed_sections)).sum
            total_units := totalUnits
            completed_units := completedUnits
            completion_percentage :=
              pyRound1 (if 0 < totalUnits then (completedUnits : ℚ) / (totalUnits : ℚ) * 100 else 0) }
        chapters := chapters }

/-- Lexicographic comparison of character lists: Python's `<=` on strings
compares code points left to right. -/
def charListLe : List Char → List Char → Bool
  | [], _ => true
  | _ :: _, [] => false
  | a :: as, b :: bs => if a < b then true else if b < a then false else charListLe as bs

/-- Python's `<=` on strings. -/
def pyStrLe (a b : String) : Bool := charListLe a.data b.data

/-- Stable insertion of one element into a sorted list: `a` goes in front of
the first element `b` with `le a b`. -/
def insertSorted {α : Type} (le : α → α → Bool) (a : α) : List α → List α
  | [] => [a]
  | b :: l => if le a b then a :: b :: l else b :: insertSorted le a l

/-- Extensional model of Python's stable `list.sort(key=...)`: a stable
insertion sort by the boolean comparison `le` induced by the sort key. -/
def stableSort {α : Type} (le : α → α → Bool) : List α → List α
  | [] => []
  | a :: l => insertSorted le a (stableSort le l)

/-- One row of `completion_data` in `LeaderboardTabView.get`. -/
structure CompletionEntry where
  user_id : Nat
  username : String
  display_name : String
  completion_percent : ℚ
  letter_grade : String
  is_passing : Bool
  is_current_user : Bool
deriving Repr, DecidableEq

/-- The comparison induced by `key=lambda x: (-x['completion_percent'],
x['username'])` in `LeaderboardTabView.get`: completion descending, username
ascending as secondary key. -/
def lbLe (a b : CompletionEntry) : Bool :=
  decide (b.completion_percent < a.completion_percent) ||
    (decide (a.completion_percent = b.completion_percent) && pyStrLe a.username b.username)

/-- The ranking loop of `LeaderboardTabView.get`: `rank` starts at 1 and is
reset to `idx + 1` exactly when the completion score strictly decreases
versus the previous entry. -/
def rank_loop : Nat → Option ℚ → Nat → List CompletionEntry →
    List (Nat × CompletionEntry)
  | _, _, _, [] => []
  | rank, prev, idx, e :: rest =>
    let r := match prev with
      | none => rank
      | some p => if e.completion_percent < p then idx + 1 else rank
    (r, e) :: rank_loop r (some e.completion_percent) (idx + 1) rest

/-- The shared-rank leaderboard of `LeaderboardTabView.get`: sort, then run
the ranking loop. -/
def leaderboard_rank (metrics : List CompletionEntry) :
    List (Nat × CompletionEntry) :=
  rank_loop 1 none 0 (stableSort lbLe metrics)

/-- One row of `grades_data` / `progress_data` in `TopGradesView.get` and
`TopProgressView.get`, reduced to the fields the ranking pipeline reads:
the numeric score, the tie-break timestamp, and the current-user flag. -/
structure RankEntry where
  user_id : Nat
  username : String
  full_name : String
  score : ℚ
  tieTime : Nat
  is_current_user : Bool
deriving Repr, DecidableEq

/-- The comparison induced by `key=lambda x: (-score, tie_breaker_time)` in
`TopGradesView.get` / `TopProgressView.get`. -/
def oLe (a b : RankEntry) : Bool :=
  decide (b.score < a.score) ||
    (decide (a.score = b.score) && decide (a.tieTime ≤ b.tieTime))

/-- The ordinal ranking loop: rank is the 1-based position in the sorted
list, distinct even on ties. -/
def rank_from (n : Nat) : List RankEntry → List (Nat × RankEntry)
  | [] => []
  | e :: rest => (n, e) :: rank_from (n + 1) rest

/-- The ordinal-rank pipeline shared by `TopGradesView.get` and
`TopProgressView.get`: sort by `(-score, tie_breaker_time)`, then assign
`rank = idx + 1`. -/
def ordinal_rank (l : List RankEntry) : List (Nat × RankEntry) :=
  rank_from 1 (stableSort oLe l)

/-- The `current_user_entry` scan: the loop overwrites the variable on every
entry whose `is_current_user` flag is set, so it keeps the last such entry. -/
def last_current_user (l : List (Nat × RankEntry)) : Option (Nat × RankEntry) :=
  l.foldl (fun acc e => if e.2.is_current_user then some e else acc) none

/-- The result-set limiting shared by both top-N views: truncate the ranked
list to `limit`, and detach the current user's entry only when it is not in
the truncated prefix. -/
def limit_and_current (ranked : List (Nat × RankEntry)) (limit : Nat) :
    List (Nat × RankEntry) × Option (Nat × RankEntry) :=
  let top := ranked.take limit
  let inTop := top.any fun e => e.2.is_current_user
  (top, if inTop then none else last_current_user ranked)

/-- A `PersistentCourseGrade` row, reduced to the fields `TopGradesView.get`
reads. -/
structure GradeRecord where
  percent_grade : ℚ
  letter_grade : Option String
  passed_timestamp : Option Nat
  modified : Nat
deriving Repr, DecidableEq

/-- An enrolled student as seen by `TopGradesView.get`: account data, the
enrollment-created timestamp (`None` when the user id is missing from the
enrollment dict), and the optional grade record. -/
structure StudentG where
  user_id : Nat
  username : String
  display_name : String
  date_joined : Nat
  enrollment_created : Option Nat
  grade : Option GradeRecord
  is_current_user : Bool
deriving Repr, DecidableEq

/-- The grade-scale transform of `TopGradesView.get`:
`round(grade.percent_grade * 10, 1) if grade.percent_grade else 0.0`. -/
def grade_percent_of (g : GradeRecord) : ℚ :=
  if g.percent_grade ≠ 0 then pyRound1 (g.percent_grade * 10) else 0

/-- `grade_time` in `TopGradesView.get`: `passed_timestamp` when present,
else `modified`; `None` without a grade record. -/
def grade_time_of (s : StudentG) : Option Nat :=
  match s.grade with
  | some g => some (g.passed_timestamp.getD g.modified)
  | none => none

/-- `tie_breaker_time` in `TopGradesView.get`: achievement time, else the
enrollment-created time, else the account's `date_joined`. -/
def tie_breaker_time (s : StudentG) : Nat :=
  match grade_time_of s with
  | some t => t
  | none =>
    match s.enrollment_created with
    | some t => t
    | none => s.date_joined

/-- The row `TopGradesView.get` appends to `grades_data` for one student. -/
def grade_entry (s : StudentG) : RankEntry :=
  { user_id := s.user_id
    username := s.username
    full_name := s.display_name
    score := match s.grade with
      | some g => grade_percent_of g
      | none => 0
    tieTime := tie_breaker_time s
    is_current_user := s.is_current_user }

/-- Python's `max(l)` as used with the `if l else 0` guard. -/
def pymax : List ℚ → ℚ
  | [] => 0
  | x :: xs => xs.foldl max x

/-- Python's `min(l)` as used with the `if l else 0` guard. -/
def pymin : List ℚ → ℚ
  | [] => 0
  | x :: xs => xs.foldl min x

/-- The `summary` object of `TopGradesView.get`. -/
structure GradesSummary where
  total_students : Nat
  avg_grade : ℚ
  max_grade : ℚ
  min_grade : ℚ
  top_count : Nat
deriving Repr, DecidableEq

/-- `TopGradesView.get` after the access checks: build a row per enrolled
student, sort and rank ordinally, truncate to `limit`, detach the current
user's entry when outside the prefix, and compute the summary statistics over
the full pre-truncation list (`grades_data`, `enrolled_user_ids`). -/
def top_grades_response (students : List StudentG) (limit : Nat) :
    GradesSummary × List (Nat × RankEntry) × Option (Nat × RankEntry) :=
  let gradesData := stableSort oLe (students.map grade_entry)
  let ranked := rank_from 1 gradesData
  let tc := limit_and_current ranked limit
  let allGrades := gradesData.map (·.score)
  let summary : GradesSummary :=
    { total_students := students.length
      avg_grade :=
        if allGrades ≠ [] then pyRound1 (allGrades.sum / (allGrades.length : ℚ)) else 0
      max_grade := pymax allGrades
      min_grade := pymin allGrades
      top_count := tc.1.length }
  (summary, tc.1, tc.2)

/-- An enrolled student as seen by `TopProgressView.get`: account data, the
enrollment-created timestamp, and the completion-summary counts. -/
structure StudentP where
  user_id : Nat
  username : String
  display_name : String
  date_joined : Nat
  enrollment_created : Option Nat
  complete_count : Nat
  incomplete_count : Nat
  locked_count : Nat
  is_current_user : Bool
deriving Repr, DecidableEq

/-- The completion percentage of `TopProgressView.get`:
`round(complete / total * 100, 2)` with `0.0` when `total` is zero. -/
def progress_percent_of (s : StudentP) : ℚ :=
  let total := s.complete_count + s.incomplete_count + s.locked_count
  if 0 < total then pyRound2 ((s.complete_count : ℚ) / (total : ℚ) * 100) else 0

/-- The row `TopProgressView.get` appends to `progress_data`: the tie-break
time is the enrollment-created time, else `date_joined` (no achievement time
exists for progress). -/
def progress_entry (s : StudentP) : RankEntry :=
  { user_id := s.user_id
    username := s.username
    full_name := s.display_name
    score := progress_percent_of s
    tieTime :=
      match s.enrollment_created with
      | some t => t
      | none => s.date_joined
    is_current_user := s.is_current_user }

/-- The `summary` object of `TopProgressView.get`. -/
structure ProgressSummary where
  total_students_with_progress : Nat
  avg_progress : ℚ
  top_count : Nat
deriving Repr, DecidableEq

/-- `TopProgressView.get` after the access checks: the same ordinal-rank,
truncate, detach-current-user pipeline over `progress_data`. -/
def top_progress_response (students : List StudentP) (limit : Nat) :
    ProgressSummary × List (Nat × RankEntry) × Option (Nat × RankEntry) :=
  let progressData := stableSort oLe (students.map progress_entry)
  let ranked := rank_from 1 progressData
  let tc := limit_and_current ranked limit
  let allProgress := progressData.map (·.score)
  let summary : ProgressSummary :=
    { total_students_with_progress := allProgress.length
      avg_progress :=
        if 0 < allProgress.length then
          pyRound2 (allProgress.sum / (allProgress.length : ℚ))
        else 0
      top_count := tc.1.length }
  (summary, tc.1, tc.2)

/-! ### Helper lemmas: the string comparison is a total preorder -/

theorem charListLe_total : ∀ a b : List Char,
    charListLe a b = true ∨ charListLe b a = true
  | [], _ => Or.inl rfl
  | _ :: _, [] => Or.inr rfl
  | a :: as, b :: bs => by
    rcases lt_trichotomy a b with h | h | h
    · left
      simp [charListLe, h]
    · subst h
      rcases charListLe_total as bs with ih | ih
      · left
        simp [charListLe, ih]
      · right
        simp [charListLe, ih]
    · right
      simp [charListLe, h]

theorem charListLe_trans : ∀ a b c : List Char,
    charListLe a b = true → charListLe b c = true → charListLe a c = true
  | [], _, _, _, _ => rfl
  | _ :: _, [], _, h1, _ => by simp [charListLe] at h1
  | _ :: _, _ :: _, [], _, h2 => by simp [charListLe] at h2
  | a :: as, b :: bs, c :: cs, h1, h2 => by
    unfold charListLe at h1 h2 ⊢
    rcases lt_trichotomy a b with hab | hab | hab
    · rcases lt_trichotomy b c with hbc | hbc | hbc
      · simp [lt_trans hab hbc]
      · subst hbc
        simp [hab]
      · rw [if_neg (asymm hbc), if_pos hbc] at h2
        exact absurd h2 (by simp)
    · subst hab
      rcases lt_trichotomy a c with hbc | hbc | hbc
      · simp [hbc]
      · subst hbc
        rw [if_neg (lt_irrefl a), if_neg (lt_irrefl a)] at h1 h2 ⊢
        exact charListLe_trans as bs cs h1 h2
      · rw [if_neg (asymm hbc), if_pos hbc] at h2
        exact absurd h2 (by simp)
    · rw [if_neg (asymm hab), if_pos hab] at h1
      exact absurd h1 (by simp)

theorem pyStrLe_total (a b : String) : pyStrLe a b = true ∨ pyStrLe b a = true :=
  charListLe_total a.data b.data

theorem pyStrLe_trans {a b c : String} (h1 : pyStrLe a b = true)
    (h2 : pyStrLe b c = true) : pyStrLe a c = true :=
  charListLe_trans a.data b.data c.data h1 h2

/-! ### Helper lemmas: the stable sort permutes its input and sorts it -/

theorem insertSorted_perm {α : Type} (le : α → α → Bool) (a : α) :
    ∀ l : List α, (insertSorted le a l).Perm (a :: l)
  | [] => List.Perm.refl _
  | b :: l => by
    unfold insertSorted
    split
    · exact List.Perm.refl _
    · exact ((insertSorted_perm le a l).cons b).trans (List.Perm.swap a b l)

theorem stableSort_perm {α : Type} (le : α → α → Bool) :
    ∀ l : List α, (stableSort le l).Perm l
  | [] => List.Perm.refl _
  | a :: l =>
    (insertSorted_perm le a (stableSort le l)).trans ((stableSort_perm le l).cons a)

theorem pairwise_insertSorted {α : Type} {le : α → α → Bool}
    (total : ∀ a b, le a b = true ∨ le b a = true)
    (htrans : ∀ a b c, le a b = true → le b c = true → le a c = true) :
    ∀ (l : List α) (a : α), l.Pairwise (le · · = true) →
      (insertSorted le a l).Pairwise (le · · = true)
  | [], a, _ => by simp [insertSorted]
  | b :: l, a, h => by
    rcases List.pairwise_cons.mp h with ⟨hb, hl⟩
    unfold insertSorted
    by_cases hab : le a b = true
    · rw [if_pos hab]
      refine List.pairwise_cons.mpr ⟨?_, h⟩
      intro x hx
      rcases List.mem_cons.mp hx with rfl | hx
      · exact hab
      · exact htrans a b x hab (hb x hx)
    · rw [if_neg hab]
      have hba : le b a = true := (total a b).resolve_left hab
      refine List.pairwise_cons.mpr
        ⟨?_, pairwise_insertSorted total htrans l a hl⟩
      intro x hx
      rw [(insertSorted_perm le a l).mem_iff] at hx
      rcases List.mem_cons.mp hx with rfl | hx
      · exact hba
      · exact hb x hx

theorem pairwise_stableSort {α : Type} {le : α → α → Bool}
    (total : ∀ a b, le a b = true ∨ le b a = true)
    (htrans : ∀ a b c, le a b = true → le b c = true → le a c = true) :
    ∀ l : List α, (stableSort le l).Pairwise (le · · = true)
  | [] => by simp [stableSort]
  | a :: l =>
    pairwise_insertSorted total htrans _ a (pairwise_stableSort total htrans l)

theorem lbLe_total (a b : CompletionEntry) : lbLe a b = true ∨ lbLe b a = true := by
  simp only [lbLe, Bool.or_eq_true, Bool.and_eq_true, decide_eq_true_eq]
  rcases lt_trichotomy a.completion_percent b.completion_percent with h | h | h
  · right
    exact Or.inl h
  · rcases pyStrLe_total a.username b.username with hs | hs
    · exact Or.inl (Or.inr ⟨h, hs⟩)
    · exact Or.inr (Or.inr ⟨h.symm, hs⟩)
  · left
    exact Or.inl h

theorem lbLe_trans (a b c : CompletionEntry) (h1 : lbLe a b = true)
    (h2 : lbLe b c = true) : lbLe a c = true := by
  simp only [lbLe, Bool.or_eq_true, Bool.and_eq_true, decide_eq_true_eq] at h1 h2 ⊢
  rcases h1 with h1 | ⟨h1e, h1s⟩
  · rcases h2 with h2 | ⟨h2e, _⟩
    · exact Or.inl (lt_trans h2 h1)
    · exact Or.inl (h2e ▸ h1)
  · rcases h2 with h2 | ⟨h2e, h2s⟩
    · exact Or.inl (h1e ▸ h2)
    · exact Or.inr ⟨h1e.trans h2e, pyStrLe_trans h1s h2s⟩

theorem oLe_total (a b : RankEntry) : oLe a b = true ∨ oLe b a = true := by
  simp only [oLe, Bool.or_eq_true, Bool.and_eq_true, decide_eq_true_eq]
  rcases lt_trichotomy a.score b.score with h | h | h
  · right
    exact Or.inl h
  · rcases le_total a.tieTime b.tieTime with hs | hs
    · exact Or.inl (Or.inr ⟨h, hs⟩)
    · exact Or.inr (Or.inr ⟨h.symm, hs⟩)
  · left
    exact Or.inl h

theorem oLe_trans (a b c : RankEntry) (h1 : oLe a b = true)
    (h2 : oLe b c = true) : oLe a c = true := by
  simp only [oLe, Bool.or_eq_true, Bool.and_eq_true, decide_eq_true_eq] at h1 h2 ⊢
  rcases h1 with h1 | ⟨h1e, h1s⟩
  · rcases h2 with h2 | ⟨h2e, _⟩
    · exact Or.inl (lt_trans h2 h1)
    · exact Or.inl (h2e ▸ h1)
  · rcases h2 with h2 | ⟨h2e, h2s⟩
    · exact Or.inl (h1e ▸ h2)
    · exact Or.inr ⟨h1e.trans h2e, le_trans h1s h2s⟩

/-! ### Positional accessors (total, via `getD`) for ranked lists -/

/-- Rank stored at 0-based position `j` of a ranked list. -/
def rankAt {α : Type} (rl : List (Nat × α)) (j : Nat) : Nat :=
  (rl.map Prod.fst).getD j 0

/-- Completion score at 0-based position `j`. -/
def scoreAtC (rl : List (Nat × CompletionEntry)) (j : Nat) : ℚ :=
  (rl.map (·.2.completion_percent)).getD j 0

/-- Username at 0-based position `j`. -/
def userAtC (rl : List (Nat × CompletionEntry)) (j : Nat) : String :=
  (rl.map (·.2.username)).getD j ""

/-- Score at 0-based position `j` of an ordinal-ranked list. -/
def scoreAtR (rl : List (Nat × RankEntry)) (j : Nat) : ℚ :=
  (rl.map (·.2.score)).getD j 0

/-- Tie-break time at 0-based position `j` of an ordinal-ranked list. -/
def timeAtR (rl : List (Nat × RankEntry)) (j : Nat) : Nat :=
  (rl.map (·.2.tieTime)).getD j 0

/-! ### Helper lemmas about the shared-rank loop -/

theorem rank_loop_length : ∀ (l : List CompletionEntry) (r : Nat) (p : Option ℚ)
    (i : Nat), (rank_loop r p i l).length = l.length
  | [], _, _, _ => rfl
  | e :: rest, r, p, i => by
    simp [rank_loop, rank_loop_length rest]

theorem rank_loop_map_snd : ∀ (l : List CompletionEntry) (r : Nat) (p : Option ℚ)
    (i : Nat), (rank_loop r p i l).map Prod.snd = l
  | [], _, _, _ => rfl
  | e :: rest, r, p, i => by
    simp [rank_loop, rank_loop_map_snd rest]

theorem rank_loop_rankAt_zero (l : List CompletionEntry) (r i : Nat)
    (h : l ≠ []) : rankAt (rank_loop r none i l) 0 = r := by
  cases l with
  | nil => exact absurd rfl h
  | cons e rest => simp [rank_loop, rankAt]

theorem rank_loop_rankAt_succ :
    ∀ (l : List CompletionEntry) (r : Nat) (p : Option ℚ) (i j : Nat),
    j + 1 < l.length →
    rankAt (rank_loop r p i l) (j + 1) =
      if (l.map (·.completion_percent)).getD (j + 1) 0 <
          (l.map (·.completion_percent)).getD j 0
      then i + j + 2
      else rankAt (rank_loop r p i l) j
  | [], _, _, _, _, h => by simp at h
  | [e], _, _, _, j, h => by simp at h
  | e :: f :: rest, r, p, i, 0, _ => by
    simp only [rank_loop, rankAt, List.map_cons, List.getD_cons_succ,
      List.getD_cons_zero]
  | e :: f :: rest, r, p, i, j + 1, h => by
    have h' : j + 1 < (f :: rest).length := by
      simpa using Nat.lt_of_succ_lt_succ h
    have ih := rank_loop_rankAt_succ (f :: rest)
      (match p with
        | none => r
        | some q => if e.completion_percent < q then i + 1 else r)
      (some e.completion_percent) (i + 1) j h'
    simp only [rank_loop, rankAt, List.map_cons, List.getD_cons_succ] at ih ⊢
    rw [ih]
    have : i + 1 + j + 2 = i + (j + 1) + 2 := by omega
    rw [this]

/-! ### Helper lemmas about the ordinal-rank loop -/

theorem rank_from_length : ∀ (l : List RankEntry) (n : Nat),
    (rank_from n l).length = l.length
  | [], _ => rfl
  | e :: rest, n => by simp [rank_from, rank_from_length rest]

theorem rank_from_map_snd : ∀ (l : List RankEntry) (n : Nat),
    (rank_from n l).map Prod.snd = l
  | [], _ => rfl
  | e :: rest, n => by simp [rank_from, rank_from_map_snd rest]

theorem rank_from_rankAt : ∀ (l : List RankEntry) (n j : Nat), j < l.length →
    rankAt (rank_from n l) j = n + j
  | [], _, _, h => by simp at h
  | e :: rest, n, 0, _ => by simp [rank_from, rankAt]
  | e :: rest, n, j + 1, h => by
    have h' : j < rest.length := Nat.lt_of_succ_lt_succ h
    have ih := rank_from_rankAt rest (n + 1) j h'
    simp only [rank_from, rankAt, List.map_cons, List.getD_cons_succ] at ih ⊢
    rw [ih]
    omega

theorem pairwise_getD {α : Type} {R : α → α → Prop} {l : List α}
    (h : l.Pairwise R) (d : α) {i j : Nat} (hij : i < j) (hj : j < l.length) :
    R (l.getD i d) (l.getD j d) := by
  have hi : i < l.length := lt_trans hij hj
  rw [List.getD_eq_getElem l d hi, List.getD_eq_getElem l d hj]
  exact List.pairwise_iff_getElem.mp h i j hi hj hij

theorem getD_map_eq {α β : Type} (f : α → β) (l : List α) (d : α) (db : β)
    {j : Nat} (hj : j < l.length) : (l.map f).getD j db = f (l.getD j d) := by
  rw [List.getD_eq_getElem (l.map f) db (by simpa using hj),
    List.getD_eq_getElem l d hj, List.getElem_map]

/-- A throwaway default entry for positional access. -/
def defaultCE : CompletionEntry :=
  { user_id := 0, username := "", display_name := "", completion_percent := 0,
    letter_grade := "", is_passing := false, is_current_user := false }

theorem leaderboard_rank_map_snd (metrics : List CompletionEntry) :
    (leaderboard_rank metrics).map Prod.snd = stableSort lbLe metrics :=
  rank_loop_map_snd _ 1 none 0

theorem leaderboard_rank_length (metrics : List CompletionEntry) :
    (leaderboard_rank metrics).length = metrics.length := by
  rw [leaderboard_rank, rank_loop_length, (stableSort_perm lbLe metrics).length_eq]

theorem leaderboard_rank_scores (metrics : List CompletionEntry) :
    (leaderboard_rank metrics).map (·.2.completion_percent) =
      (stableSort lbLe metrics).map (·.completion_percent) := by
  rw [← leaderboard_rank_map_snd metrics, List.map_map]
  rfl

theorem leaderboard_rank_users (metrics : List CompletionEntry) :
    (leaderboard_rank metrics).map (·.2.username) =
      (stableSort lbLe metrics).map (·.username) := by
  rw [← leaderboard_rank_map_snd metrics, List.map_map]
  rfl

/-- C1 (shared-rank policy, basic completion leaderboard): the ranked list of
`LeaderboardTabView.get` is a permutation of the input metrics; consecutive
entries are ordered by completion score descending with username ascending as
secondary key; the first entry has rank 1; an entry whose score equals the
immediately preceding entry's score inherits the same rank; and the rank
advances to `position + 1` (1-based, i.e. `j + 2` at 0-based position
`j + 1`) exactly when the score strictly decreases versus the previous
entry. -/
theorem leaderboard_shared_rank_policy (metrics : List CompletionEntry) :
    ((leaderboard_rank metrics).map Prod.snd).Perm metrics
    ∧ (0 < (leaderboard_rank metrics).length →
        rankAt (leaderboard_rank metrics) 0 = 1)
    ∧ (∀ j : Nat, j + 1 < (leaderboard_rank metrics).length →
        (scoreAtC (leaderboard_rank metrics) (j + 1) <
            scoreAtC (leaderboard_rank metrics) j
          ∨ (scoreAtC (leaderboard_rank metrics) (j + 1) =
                scoreAtC (leaderboard_rank metrics) j
              ∧ pyStrLe (userAtC (leaderboard_rank metrics) j)
                  (userAtC (leaderboard_rank metrics) (j + 1)) = true))
        ∧ (scoreAtC (leaderboard_rank metrics) (j + 1) =
              scoreAtC (leaderboard_rank metrics) j →
            rankAt (leaderboard_rank metrics) (j + 1) =
              rankAt (leaderboard_rank metrics) j)
        ∧ (scoreAtC (leaderboard_rank metrics) (j + 1) <
              scoreAtC (leaderboard_rank metrics) j →
            rankAt (leaderboard_rank metrics) (j + 1) = j + 2)) := by
  refine ⟨?_, ?_, ?_⟩
  · rw [leaderboard_rank_map_snd]
    exact stableSort_perm lbLe metrics
  · intro h
    apply rank_loop_rankAt_zero
    rw [← List.length_pos]
    rw [leaderboard_rank, rank_loop_length] at h
    exact h
  · intro j hj
    have hls : (leaderboard_rank metrics).length = (stableSort lbLe metrics).length := by
      rw [leaderboard_rank, rank_loop_length]
    have hj' : j + 1 < (stableSort lbLe metrics).length := by rw [← hls]; exact hj
    have hjlt : j < (stableSort lbLe metrics).length := Nat.lt_of_succ_lt hj'
    have hscore : ∀ k : Nat, scoreAtC (leaderboard_rank metrics) k =
        ((stableSort lbLe metrics).map (·.completion_percent)).getD k 0 := by
      intro k
      rw [scoreAtC, leaderboard_rank_scores]
    have hsj : scoreAtC (leaderboard_rank metrics) j =
        ((stableSort lbLe metrics).getD j defaultCE).completion_percent := by
      rw [hscore, getD_map_eq _ _ defaultCE 0 hjlt]
    have hsj1 : scoreAtC (leaderboard_rank metrics) (j + 1) =
        ((stableSort lbLe metrics).getD (j + 1) defaultCE).completion_percent := by
      rw [hscore, getD_map_eq _ _ defaultCE 0 hj']
    have husj : userAtC (leaderboard_rank metrics) j =
        ((stableSort lbLe metrics).getD j defaultCE).username := by
      rw [userAtC, leaderboard_rank_users, getD_map_eq _ _ defaultCE "" hjlt]
    have husj1 : userAtC (leaderboard_rank metrics) (j + 1) =
        ((stableSort lbLe metrics).getD (j + 1) defaultCE).username := by
      rw [userAtC, leaderboard_rank_users, getD_map_eq _ _ defaultCE "" hj']
    have hpw := pairwise_stableSort lbLe_total lbLe_trans metrics
    have hadj := pairwise_getD hpw defaultCE (Nat.lt_succ_self j) hj'
    simp only [lbLe, Bool.or_eq_true, Bool.and_eq_true, decide_eq_true_eq] at hadj
    have hrank := rank_loop_rankAt_succ (stableSort lbLe metrics) 1 none 0 j hj'
    rw [← leaderboard_rank] at hrank
    refine ⟨?_, ?_, ?_⟩
    · rw [hsj, hsj1, husj, husj1]
      rcases hadj with h | ⟨he, hu⟩
      · exact Or.inl h
      · exact Or.inr ⟨he.symm, hu⟩
    · intro he
      rw [hscore j, hscore (j + 1)] at he
      rw [hrank, if_neg (by rw [he]; exact lt_irrefl _)]
    · intro hlt
      rw [hscore j, hscore (j + 1)] at hlt
      rw [hrank, if_pos hlt]
      omega

/-- Concrete input for the shared-rank policy: scores `[90, 90, 80]`. -/
def exC1 : List CompletionEntry :=
  [{ user_id := 2, username := "bob", display_name := "Bob",
     completion_percent := 80, letter_grade := "B", is_passing := true,
     is_current_user := false },
   { user_id := 1, username := "alice", display_name := "Alice",
     completion_percent := 90, letter_grade := "A", is_passing := true,
     is_current_user := true },
   { user_id := 3, username := "carol", display_name := "Carol",
     completion_percent := 90, letter_grade := "A", is_passing := true,
     is_current_user := false }]

theorem leaderboard_shared_rank_policy_witness :
    (leaderboard_rank exC1).map Prod.fst = [1, 1, 3]
    ∧ 0 < (leaderboard_rank exC1).length
    ∧ rankAt (leaderboard_rank exC1) 0 = 1
    ∧ 0 + 1 < (leaderboard_rank exC1).length
    ∧ (scoreAtC (leaderboard_rank exC1) 1 = scoreAtC (leaderboard_rank exC1) 0 →
        rankAt (leaderboard_rank exC1) 1 = rankAt (leaderboard_rank exC1) 0)
    ∧ 1 + 1 < (leaderboard_rank exC1).length
    ∧ (scoreAtC (leaderboard_rank exC1) 2 < scoreAtC (leaderboard_rank exC1) 1 →
        rankAt (leaderboard_rank exC1) 2 = 3) :=
  ⟨by decide, by decide,
    (leaderboard_shared_rank_policy exC1).2.1 (by decide), by decide,
    ((leaderboard_shared_rank_policy exC1).2.2 0 (by decide)).2.1, by decide,
    ((leaderboard_shared_rank_policy exC1).2.2 1 (by decide)).2.2⟩

/-- A throwaway default entry for positional access. -/
def defaultRE : RankEntry :=
  { user_id := 0, username := "", full_name := "", score := 0, tieTime := 0,
    is_current_user := false }

theorem ordinal_rank_map_snd (l : List RankEntry) :
    (ordinal_rank l).map Prod.snd = stableSort oLe l :=
  rank_from_map_snd _ 1

theorem ordinal_rank_length (l : List RankEntry) :
    (ordinal_rank l).length = l.length := by
  rw [ordinal_rank, rank_from_length, (stableSort_perm oLe l).length_eq]

theorem ordinal_rank_scores (l : List RankEntry) :
    (ordinal_rank l).map (·.2.score) = (stableSort oLe l).map (·.score) := by
  rw [← ordinal_rank_map_snd l, List.map_map]
  rfl

theorem ordinal_rank_times (l : List RankEntry) :
    (ordinal_rank l).map (·.2.tieTime) = (stableSort oLe l).map (·.tieTime) := by
  rw [← ordinal_rank_map_snd l, List.map_map]
  rfl

/-- C2 (ordinal-rank policy, top-grades and top-progress): the pipeline shared
by `TopGradesView.get` and `TopProgressView.get` sorts by score descending
then tie-break timestamp ascending and gives every entry the distinct rank
`position + 1`, even on exact score ties, so of two tied entries the one with
the earlier timestamp gets the smaller rank; the tie-break timestamp is the
achievement time (grade-passed timestamp, else grade-modified time) when a
grade record exists, else the enrollment-created time, else the
account-creation time (`date_joined`); both views truncate exactly this
ranked list. -/
theorem ordinal_rank_policy (l : List RankEntry) :
    ((ordinal_rank l).map Prod.snd).Perm l
    ∧ (∀ j : Nat, j < (ordinal_rank l).length →
        rankAt (ordinal_rank l) j = j + 1)
    ∧ (∀ j : Nat, j + 1 < (ordinal_rank l).length →
        scoreAtR (ordinal_rank l) (j + 1) < scoreAtR (ordinal_rank l) j
        ∨ (scoreAtR (ordinal_rank l) (j + 1) = scoreAtR (ordinal_rank l) j
           ∧ timeAtR (ordinal_rank l) j ≤ timeAtR (ordinal_rank l) (j + 1)))
    ∧ (∀ i j : Nat, i < (ordinal_rank l).length → j < (ordinal_rank l).length →
        scoreAtR (ordinal_rank l) i = scoreAtR (ordinal_rank l) j →
        timeAtR (ordinal_rank l) i < timeAtR (ordinal_rank l) j →
        rankAt (ordinal_rank l) i < rankAt (ordinal_rank l) j)
    ∧ (∀ (s : StudentG) (g : GradeRecord), s.grade = some g →
        (grade_entry s).tieTime = g.passed_timestamp.getD g.modified)
    ∧ (∀ s : StudentG, s.grade = none → ∀ t : Nat,
        s.enrollment_created = some t → (grade_entry s).tieTime = t)
    ∧ (∀ s : StudentG, s.grade = none → s.enrollment_created = none →
        (grade_entry s).tieTime = s.date_joined)
    ∧ (∀ (s : StudentP) (t : Nat), s.enrollment_created = some t →
        (progress_entry s).tieTime = t)
    ∧ (∀ s : StudentP, s.enrollment_created = none →
        (progress_entry s).tieTime = s.date_joined)
    ∧ (∀ (students : List StudentG) (limit : Nat),
        (top_grades_response students limit).2.1 =
          (ordinal_rank (students.map grade_entry)).take limit)
    ∧ (∀ (students : List StudentP) (limit : Nat),
        (top_progress_response students limit).2.1 =
          (ordinal_rank (students.map progress_entry)).take limit) := by
  have hlen : (ordinal_rank l).length = (stableSort oLe l).length := by
    rw [ordinal_rank, rank_from_length]
  have hscore : ∀ k : Nat, scoreAtR (ordinal_rank l) k =
      ((stableSort oLe l).map (·.score)).getD k 0 := fun k => by
    rw [scoreAtR, ordinal_rank_scores]
  have htime : ∀ k : Nat, timeAtR (ordinal_rank l) k =
      ((stableSort oLe l).map (·.tieTime)).getD k 0 := fun k => by
    rw [timeAtR, ordinal_rank_times]
  have hpw := pairwise_stableSort oLe_total oLe_trans l
  have hrank : ∀ j : Nat, j < (ordinal_rank l).length →
      rankAt (ordinal_rank l) j = j + 1 := by
    intro j hj
    rw [ordinal_rank, rank_from_rankAt _ 1 j (by rw [← hlen]; exact hj)]
    omega
  refine ⟨?_, hrank, ?_, ?_, ?_, ?_, ?_, ?_, ?_, ?_, ?_⟩
  · rw [ordinal_rank_map_snd]
    exact stableSort_perm oLe l
  · intro j hj
    have hj' : j + 1 < (stableSort oLe l).length := by rw [← hlen]; exact hj
    have hjlt : j < (stableSort oLe l).length := Nat.lt_of_succ_lt hj'
    have hadj := pairwise_getD hpw defaultRE (Nat.lt_succ_self j) hj'
    simp only [oLe, Bool.or_eq_true, Bool.and_eq_true, decide_eq_true_eq] at hadj
    rw [hscore j, hscore (j + 1), htime j, htime (j + 1),
      getD_map_eq _ _ defaultRE 0 hjlt, getD_map_eq _ _ defaultRE 0 hj',
      getD_map_eq _ _ defaultRE 0 hjlt, getD_map_eq _ _ defaultRE 0 hj']
    rcases hadj with h | ⟨he, ht⟩
    · exact Or.inl h
    · exact Or.inr ⟨he.symm, ht⟩
  · intro i j hi hj heq hlt
    have hi' : i < (stableSort oLe l).length := by rw [← hlen]; exact hi
    have hj' : j < (stableSort oLe l).length := by rw [← hlen]; exact hj
    have hij : i < j := by
      rcases lt_trichotomy i j with h | h | h
      · exact h
      · subst h
        exact absurd hlt (lt_irrefl _)
      · exfalso
        have hji := pairwise_getD hpw defaultRE h hi'
        simp only [oLe, Bool.or_eq_true, Bool.and_eq_true, decide_eq_true_eq] at hji
        rw [hscore i, hscore j, getD_map_eq _ _ defaultRE 0 hi',
          getD_map_eq _ _ defaultRE 0 hj'] at heq
        rw [htime i, htime j, getD_map_eq _ _ defaultRE 0 hi',
          getD_map_eq _ _ defaultRE 0 hj'] at hlt
        rcases hji with hs | ⟨_, ht⟩
        · rw [heq] at hs
          exact lt_irrefl _ hs
        · exact absurd hlt (not_lt_of_le ht)
    rw [hrank i hi, hrank j hj]
    omega
  · intro s g hg
    simp [grade_entry, tie_breaker_time, grade_time_of, hg]
  · intro s hg t ht
    simp [grade_entry, tie_breaker_time, grade_time_of, hg, ht]
  · intro s hg ht
    simp [grade_entry, tie_breaker_time, grade_time_of, hg, ht]
  · intro s t ht
    simp [progress_entry, ht]
  · intro s ht
    simp [progress_entry, ht]
  · intro students limit
    rfl
  · intro students limit
    rfl

/-- Concrete input for the ordinal-rank policy: scores `[90, 90, 80]` and
tie-break timestamps `5 < 9` on the tied pair. -/
def exC2 : List RankEntry :=
  [{ user_id := 1, username := "u1", full_name := "U1", score := 80,
     tieTime := 3, is_current_user := false },
   { user_id := 2, username := "u2", full_name := "U2", score := 90,
     tieTime := 9, is_current_user := false },
   { user_id := 3, username := "u3", full_name := "U3", score := 90,
     tieTime := 5, is_current_user := true }]

/-- A concrete grade record for the tie-break chain. -/
def exGR : GradeRecord :=
  { percent_grade := 1, letter_grade := some "A", passed_timestamp := some 100,
    modified := 200 }

/-- A student with a grade record (achievement time wins). -/
def exSG1 : StudentG :=
  { user_id := 1, username := "s1", display_name := "S1", date_joined := 10,
    enrollment_created := some 50, grade := some exGR, is_current_user := false }

/-- A student with no grade record but an enrollment time. -/
def exSG2 : StudentG :=
  { user_id := 2, username := "s2", display_name := "S2", date_joined := 10,
    enrollment_created := some 50, grade := none, is_current_user := false }

/-- A student with neither grade nor enrollment time. -/
def exSG3 : StudentG :=
  { user_id := 3, username := "s3", display_name := "S3", date_joined := 10,
    enrollment_created := none, grade := none, is_current_user := false }

/-- A progress student with an enrollment time. -/
def exSP1 : StudentP :=
  { user_id := 4, username := "p1", display_name := "P1", date_joined := 20,
    enrollment_created := some 60, complete_count := 0, incomplete_count := 0,
    locked_count := 0, is_current_user := false }

/-- A progress student without an enrollment time. -/
def exSP2 : StudentP :=
  { user_id := 5, username := "p2", display_name := "P2", date_joined := 20,
    enrollment_created := none, complete_count := 0, incomplete_count := 0,
    locked_count := 0, is_current_user := false }

theorem ordinal_rank_policy_witness :
    (ordinal_rank exC2).map Prod.fst = [1, 2, 3]
    ∧ 0 < (ordinal_rank exC2).length
    ∧ rankAt (ordinal_rank exC2) 0 = 0 + 1
    ∧ 1 < (ordinal_rank exC2).length
    ∧ scoreAtR (ordinal_rank exC2) 0 = scoreAtR (ordinal_rank exC2) 1
    ∧ timeAtR (ordinal_rank exC2) 0 < timeAtR (ordinal_rank exC2) 1
    ∧ rankAt (ordinal_rank exC2) 0 < rankAt (ordinal_rank exC2) 1
    ∧ (grade_entry exSG1).tieTime = exGR.passed_timestamp.getD exGR.modified
    ∧ (grade_entry exSG2).tieTime = 50
    ∧ (grade_entry exSG3).tieTime = exSG3.date_joined
    ∧ (progress_entry exSP1).tieTime = 60
    ∧ (progress_entry exSP2).tieTime = exSP2.date_joined :=
  ⟨by decide, by decide,
    (ordinal_rank_policy exC2).2.1 0 (by decide), by decide, by decide,
    by decide,
    (ordinal_rank_policy exC2).2.2.2.1 0 1 (by decide) (by decide) (by decide)
      (by decide),
    (ordinal_rank_policy exC2).2.2.2.2.1 exSG1 exGR rfl,
    (ordinal_rank_policy exC2).2.2.2.2.2.1 exSG2 rfl 50 rfl,
    (ordinal_rank_policy exC2).2.2.2.2.2.2.1 exSG3 rfl rfl,
    (ordinal_rank_policy exC2).2.2.2.2.2.2.2.1 exSP1 60 rfl,
    (ordinal_rank_policy exC2).2.2.2.2.2.2.2.2.1 exSP2 rfl⟩

/-- C4 (failure semantics of the badge aggregation): when the block-tree
fetch raises, or yields a missing root, or a root id that is not a key of the
block map, the aggregation returns the defined empty rollup — all six counts
zero, `completion_percentage` `0.0`, empty chapter list — and, both stages
being total functions, no exception escapes the aggregation core. -/
theorem badge_empty_rollup_on_failure (normKey : String → Option String)
    (completions : List (String × Nat)) (fetch : Except String BlocksData)
    (h : (∃ e, fetch = Except.error e)
      ∨ (∃ bd, fetch = Except.ok bd ∧
          (bd.root = none ∨ ∃ r, bd.root = some r ∧ bd.blocks.lookup r = none))) :
    build_badge_data normKey (get_course_structure fetch) completions =
      emptyBadgeData := by
  rcases h with ⟨e, rfl⟩ | ⟨bd, rfl, hroot⟩
  · rfl
  · rcases hroot with hnone | ⟨r, hr, hlook⟩
    · simp [get_course_structure, hnone, build_badge_data]
    · simp [get_course_structure, hr, hlook, build_badge_data]

/-- A block used by concrete badge examples. -/
def exBlockA : Block :=
  { blockType := "chapter", displayName := "X", children := [], complete := false }

theorem badge_empty_rollup_on_failure_witness :
    build_badge_data (fun _ => none)
      (get_course_structure (Except.error "boom")) [] = emptyBadgeData
    ∧ build_badge_data (fun _ => none)
        (get_course_structure
          (Except.ok { blocks := [("a", exBlockA)], root := some "missing" }))
        [] = emptyBadgeData
    ∧ build_badge_data (fun _ => none)
        (get_course_structure
          (Except.ok { blocks := [("a", exBlockA)], root := none }))
        [] = emptyBadgeData :=
  ⟨badge_empty_rollup_on_failure _ _ _ (Or.inl ⟨"boom", rfl⟩),
   badge_empty_rollup_on_failure _ _ _
     (Or.inr ⟨_, rfl, Or.inr ⟨"missing", rfl, by decide⟩⟩),
   badge_empty_rollup_on_failure _ _ _ (Or.inr ⟨_, rfl, Or.inl rfl⟩)⟩

/-- C7 (unit completion rule): a unit is completed iff its inline completion
flag is set, or its identifier in original string form, or — when canonical
reparsing succeeds — in normalized form, is a key of the full-completion
lookup; its timestamp is the lookup value for whichever of the two key forms
is present (original form preferred), else `none`; and when reparsing fails
(`normKey` returns `none`, the model of a raised parse error) the normalized
lookup is a miss: only the inline flag and the original-string match decide,
and the computation is total. -/
theorem unit_completion_rule (normKey : String → Option String)
    (completions : List (String × Nat)) (unitId : String) (blk : Block) :
    ((build_unit_data normKey completions unitId blk).is_completed =
      (blk.complete || (completions.lookup unitId).isSome ||
        (match normKey unitId with
         | some nk => (completions.lookup nk).isSome
         | none => false)))
    ∧ ((build_unit_data normKey completions unitId blk).completed_at =
        (match completions.lookup unitId with
         | some t => some t
         | none =>
           match normKey unitId with
           | some nk => completions.lookup nk
           | none => none))
    ∧ (normKey unitId = none →
        (build_unit_data normKey completions unitId blk).is_completed =
          (blk.complete || (completions.lookup unitId).isSome)
        ∧ (build_unit_data normKey completions unitId blk).completed_at =
            completions.lookup unitId) := by
  cases hc : blk.complete with
  | false =>
    cases h1 : completions.lookup unitId with
    | some t =>
      refine ⟨?_, ?_, ?_⟩ <;> simp [build_unit_data, hc, h1]
    | none =>
      cases hn : normKey unitId with
      | none =>
        refine ⟨?_, ?_, ?_⟩ <;> simp [build_unit_data, hc, h1, hn]
      | some nk =>
        cases h2 : completions.lookup nk with
        | some t =>
          refine ⟨?_, ?_, ?_⟩ <;> simp [build_unit_data, hc, h1, hn, h2]
        | none =>
          refine ⟨?_, ?_, ?_⟩ <;> simp [build_unit_data, hc, h1, hn, h2]
  | true =>
    cases h1 : completions.lookup unitId with
    | some t =>
      refine ⟨?_, ?_, ?_⟩ <;> simp [build_unit_data, hc, h1]
    | none =>
      cases hn : normKey unitId with
      | none =>
        refine ⟨?_, ?_, ?_⟩ <;> simp [build_unit_data, hc, h1, hn]
      | some nk =>
        refine ⟨?_, ?_, ?_⟩ <;> simp [build_unit_data, hc, h1, hn]

theorem unit_completion_rule_witness :
    ((build_unit_data (fun _ => none) [("u", 7)] "u" exBlockA).is_completed =
      (exBlockA.complete || (([("u", 7)] : List (String × Nat)).lookup "u").isSome))
    ∧ ((build_unit_data (fun _ => none) [("u", 7)] "u" exBlockA).completed_at =
        ([("u", 7)] : List (String × Nat)).lookup "u")
    ∧ (build_unit_data (fun _ => none) [("u", 7)] "u" exBlockA).is_completed = true
    ∧ (build_unit_data (fun _ => none) [("u", 7)] "u" exBlockA).completed_at = some 7 :=
  ⟨(unit_completion_rule (fun _ => none) [("u", 7)] "u" exBlockA).2.2 rfl |>.1,
   (unit_completion_rule (fun _ => none) [("u", 7)] "u" exBlockA).2.2 rfl |>.2,
   by decide, by decide⟩

/-! ### Helper lemmas for the badge rollup -/

theorem filter_length_eq_iff {α : Type} (p : α → Bool) (l : List α) :
    (l.filter p).length = l.length ↔ ∀ a ∈ l, p a = true := by
  rw [← List.countP_eq_length_filter]
  exact List.countP_eq_length

/-- The maximum of two optional timestamps (`none` = absent). -/
def optMax (a b : Option Nat) : Option Nat :=
  match a, b with
  | none, b => b
  | some x, none => some x
  | some x, some y => some (max x y)

/-- The latest element of a timestamp list, `none` when empty. -/
def latestOf (l : List Nat) : Option Nat :=
  match l with
  | [] => none
  | x :: xs => some (xs.foldl max x)

/-- The completion timestamps contributed by completed children. -/
def completed_times {α : Type} (isC : α → Bool) (t : α → Option Nat)
    (l : List α) : List Nat :=
  l.filterMap fun x => if isC x then t x else none

theorem optMax_none_right (a : Option Nat) : optMax a none = a := by
  cases a <;> rfl

theorem optMax_assoc (a b c : Option Nat) :
    optMax (optMax a b) c = optMax a (optMax b c) := by
  cases a <;> cases b <;> cases c <;> simp [optMax, max_assoc]

theorem foldl_max_max {α : Type} [LinearOrder α] :
    ∀ (l : List α) (a b : α), l.foldl max (max a b) = max a (l.foldl max b)
  | [], _, _ => rfl
  | x :: xs, a, b => by
    simp only [List.foldl_cons]
    rw [max_assoc, foldl_max_max xs]

theorem latestOf_cons (x : Nat) (l : List Nat) :
    latestOf (x :: l) = optMax (some x) (latestOf l) := by
  cases l with
  | nil => rfl
  | cons y ys =>
    simp only [latestOf, optMax, List.foldl_cons]
    rw [foldl_max_max]

theorem trackLatest_false (acc : Option Nat) (t : Option Nat) :
    trackLatest acc false t = acc := rfl

theorem trackLatest_true_none (acc : Option Nat) :
    trackLatest acc true none = acc := by
  cases acc <;> rfl

theorem trackLatest_true_some (acc : Option Nat) (tv : Nat) :
    trackLatest acc true (some tv) = optMax acc (some tv) := by
  cases acc with
  | none => rfl
  | some a =>
    show (if tv > a then some tv else some a) = some (max a tv)
    rcases lt_or_ge a tv with h | h
    · rw [if_pos h, max_eq_right (le_of_lt h)]
    · rw [if_neg (not_lt.mpr h), max_eq_left h]

theorem foldl_trackLatest {α : Type} (isC : α → Bool) (t : α → Option Nat) :
    ∀ (l : List α) (acc : Option Nat),
      l.foldl (fun a x => trackLatest a (isC x) (t x)) acc =
        optMax acc (latestOf (completed_times isC t l))
  | [], acc => by
    simp [completed_times, latestOf, optMax_none_right]
  | x :: xs, acc => by
    simp only [List.foldl_cons]
    rw [foldl_trackLatest isC t xs]
    cases hc : isC x
    · rw [trackLatest_false]
      congr 1
      simp [completed_times, List.filterMap_cons, hc]
    · cases ht : t x with
      | none =>
        rw [trackLatest_true_none]
        congr 1
        simp [completed_times, List.filterMap_cons, hc, ht]
      | some time =>
        rw [trackLatest_true_some]
        have hct : completed_times isC t (x :: xs) =
            time :: completed_times isC t xs := by
          simp [completed_times, List.filterMap_cons, hc, ht]
        rw [hct, latestOf_cons, ← optMax_assoc]

theorem foldl_max_le_self {α : Type} [LinearOrder α] :
    ∀ (l : List α) (a : α), a ≤ l.foldl max a
  | [], a => le_refl a
  | x :: xs, a => le_trans (le_max_left a x) (foldl_max_le_self xs (max a x))

theorem foldl_max_mem {α : Type} [LinearOrder α] :
    ∀ (l : List α) (a : α), l.foldl max a = a ∨ l.foldl max a ∈ l
  | [], _ => Or.inl rfl
  | x :: xs, a => by
    rcases foldl_max_mem xs (max a x) with h | h
    · rcases max_choice a x with hm | hm
      · left
        rw [List.foldl_cons, h, hm]
      · right
        rw [List.foldl_cons, h, hm]
        exact List.mem_cons_self x xs
    · right
      rw [List.foldl_cons]
      exact List.mem_cons_of_mem x h

theorem mem_le_foldl_max {α : Type} [LinearOrder α] :
    ∀ (l : List α) (a x : α), x ∈ l → x ≤ l.foldl max a
  | [], _, _, hx => absurd hx (List.not_mem_nil _)
  | y :: ys, a, x, hx => by
    rcases List.mem_cons.mp hx with rfl | hx
    · exact le_trans (le_max_right a x) (foldl_max_le_self ys (max a x))
    · exact mem_le_foldl_max ys (max a y) x hx

theorem latestOf_spec {l : List Nat} {m : Nat} (h : latestOf l = some m) :
    m ∈ l ∧ ∀ x ∈ l, x ≤ m := by
  cases l with
  | nil => simp [latestOf] at h
  | cons x xs =>
    simp only [latestOf, Option.some_inj] at h
    subst h
    constructor
    · rcases foldl_max_mem xs x with h | h
      · rw [h]
        exact List.mem_cons_self x xs
      · exact List.mem_cons_of_mem x h
    · intro y hy
      rcases List.mem_cons.mp hy with rfl | hy
      · exact foldl_max_le_self xs y
      · exact mem_le_foldl_max xs x y hy

theorem build_section_is_completed_iff (normKey : String → Option String)
    (blocks : List (String × Block)) (completions : List (String × Nat))
    (sid : String) (sblk : Block) :
    (build_section_data normKey blocks completions sid sblk).is_completed = true ↔
      (section_units normKey blocks completions sblk ≠ []
        ∧ ∀ u ∈ section_units normKey blocks completions sblk,
            u.is_completed = true) := by
  simp only [build_section_data, Bool.and_eq_true, decide_eq_true_eq]
  rw [filter_length_eq_iff, List.length_pos]

theorem build_chapter_is_completed_iff (normKey : String → Option String)
    (blocks : List (String × Block)) (completions : List (String × Nat))
    (cid : String) (cblk : Block) :
    (build_chapter_data normKey blocks completions cid cblk).is_completed = true ↔
      (chapter_sections normKey blocks completions cblk ≠ []
        ∧ ∀ s ∈ chapter_sections normKey blocks completions cblk,
            s.is_completed = true) := by
  simp only [build_chapter_data, Bool.and_eq_true, decide_eq_true_eq]
  rw [filter_length_eq_iff, List.length_pos]

theorem build_section_completed_at_eq (normKey : String → Option String)
    (blocks : List (String × Block)) (completions : List (String × Nat))
    (sid : String) (sblk : Block) :
    (build_section_data normKey blocks completions sid sblk).completed_at =
      latestOf (completed_times (·.is_completed) (·.completed_at)
        (section_units normKey blocks completions sblk)) := by
  simp only [build_section_data]
  rw [foldl_trackLatest]
  rfl

theorem build_chapter_completed_at_eq (normKey : String → Option String)
    (blocks : List (String × Block)) (completions : List (String × Nat))
    (cid : String) (cblk : Block) :
    (build_chapter_data normKey blocks completions cid cblk).completed_at =
      latestOf (completed_times (·.is_completed) (·.completed_at)
        (chapter_sections normKey blocks completions cblk)) := by
  simp only [build_chapter_data]
  rw [foldl_trackLatest]
  rfl

/-- C8 (non-empty-and-all-children-completed rule): a section is completed
iff it has at least one qualifying unit child and every one of them is
completed — in particular a section with zero qualifying units is never
completed, regardless of siblings — and the same rule governs chapter
completion over its qualifying sections. -/
theorem section_chapter_completed_iff (normKey : String → Option String)
    (blocks : List (String × Block)) (completions : List (String × Nat))
    (sid : String) (sblk : Block) (cid : String) (cblk : Block) :
    ((build_section_data normKey blocks completions sid sblk).is_completed = true ↔
      (section_units normKey blocks completions sblk ≠ []
        ∧ ∀ u ∈ section_units normKey blocks completions sblk,
            u.is_completed = true))
    ∧ (section_units normKey blocks completions sblk = [] →
        (build_section_data normKey blocks completions sid sblk).is_completed = false)
    ∧ ((build_chapter_data normKey blocks completions cid cblk).is_completed = true ↔
      (chapter_sections normKey blocks completions cblk ≠ []
        ∧ ∀ s ∈ chapter_sections normKey blocks completions cblk,
            s.is_completed = true))
    ∧ (chapter_sections normKey blocks completions cblk = [] →
        (build_chapter_data normKey blocks completions cid cblk).is_completed = false) := by
  refine ⟨build_section_is_completed_iff normKey blocks completions sid sblk, ?_,
    build_chapter_is_completed_iff normKey blocks completions cid cblk, ?_⟩
  · intro h
    rw [Bool.eq_false_iff]
    intro hc
    exact ((build_section_is_completed_iff normKey blocks completions
      sid sblk).mp hc).1 h
  · intro h
    rw [Bool.eq_false_iff]
    intro hc
    exact ((build_chapter_is_completed_iff normKey blocks completions
      cid cblk).mp hc).1 h

/-- An empty section block. -/
def exSecEmpty : Block :=
  { blockType := "sequential", displayName := "S", children := [],
    complete := false }

/-- An empty chapter block. -/
def exChapEmpty : Block :=
  { blockType := "chapter", displayName := "C", children := [],
    complete := false }

theorem section_chapter_completed_iff_witness :
    section_units (fun _ => none) [] [] exSecEmpty = []
    ∧ (build_section_data (fun _ => none) [] [] "s" exSecEmpty).is_completed = false
    ∧ chapter_sections (fun _ => none) [] [] exChapEmpty = []
    ∧ (build_chapter_data (fun _ => none) [] [] "c" exChapEmpty).is_completed = false :=
  ⟨by decide,
   (section_chapter_completed_iff (fun _ => none) [] [] "s" exSecEmpty "c"
     exChapEmpty).2.1 (by decide),
   by decide,
   (section_chapter_completed_iff (fun _ => none) [] [] "s" exSecEmpty "c"
     exChapEmpty).2.2.2 (by decide)⟩

/-! ### C3: concrete structures showing `completed_at` survives incompleteness -/

/-- A completed unit block (completion comes from the lookup). -/
def exuBlk1 : Block :=
  { blockType := "vertical", displayName := "U1", children := [],
    complete := false }

/-- A unit block that is not completed. -/
def exuBlk2 : Block :=
  { blockType := "vertical", displayName := "U2", children := [],
    complete := false }

/-- A section holding one completed and one incomplete unit. -/
def exSecBoth : Block :=
  { blockType := "sequential", displayName := "SB", children := ["u1", "u2"],
    complete := false }

/-- A fully completed section. -/
def exSecDone : Block :=
  { blockType := "sequential", displayName := "SD", children := ["u1"],
    complete := false }

/-- A chapter holding one completed and one incomplete section. -/
def exChapMix : Block :=
  { blockType := "chapter", displayName := "C", children := ["sd", "sb"],
    complete := false }

/-- The block map for the C3 scenario. -/
def exBlocksC3 : List (String × Block) :=
  [("u1", exuBlk1), ("u2", exuBlk2), ("sd", exSecDone), ("sb", exSecBoth),
   ("ch", exChapMix)]

/-- One completion record: unit `u1` completed at time 5. -/
def exCompsC3 : List (String × Nat) := [("u1", 5)]

/-- C3 counterexample: a section (and a chapter) that is **not** completed
still carries a non-null `completed_at` — the timestamp of its completed
children — contradicting the claim that `completed_at` is null whenever the
chapter or section is not completed. -/
theorem completed_at_counterexample :
    (build_section_data (fun _ => none) exBlocksC3 exCompsC3 "sb" exSecBoth).is_completed = false
    ∧ (build_section_data (fun _ => none) exBlocksC3 exCompsC3 "sb" exSecBoth).completed_at = some 5
    ∧ (build_chapter_data (fun _ => none) exBlocksC3 exCompsC3 "ch" exChapMix).is_completed = false
    ∧ (build_chapter_data (fun _ => none) exBlocksC3 exCompsC3 "ch" exChapMix).completed_at = some 5 := by
  decide

/-- C3 amended: at both levels, `completed_at` is the latest of the
timestamps of the *completed* children where defined (`none` when no
completed child has one) — so when the chapter (resp. section) is completed
it is exactly the maximum of its children's `completed_at` where defined,
but when it is not completed it still holds the completed children's
maximum and may be non-null. -/
theorem completed_at_latest_rule (normKey : String → Option String)
    (blocks : List (String × Block)) (completions : List (String × Nat))
    (sid cid : String) (sblk cblk : Block) :
    ((build_section_data normKey blocks completions sid sblk).completed_at =
      latestOf (completed_times (·.is_completed) (·.completed_at)
        (section_units normKey blocks completions sblk)))
    ∧ ((build_section_data normKey blocks completions sid sblk).is_completed = true →
        (build_section_data normKey blocks completions sid sblk).completed_at =
          latestOf ((section_units normKey blocks completions sblk).filterMap
            (·.completed_at)))
    ∧ (∀ m : Nat,
        (build_section_data normKey blocks completions sid sblk).completed_at = some m →
        m ∈ completed_times (·.is_completed) (·.completed_at)
            (section_units normKey blocks completions sblk)
        ∧ ∀ x ∈ completed_times (·.is_completed) (·.completed_at)
            (section_units normKey blocks completions sblk), x ≤ m)
    ∧ ((build_chapter_data normKey blocks completions cid cblk).completed_at =
        latestOf (completed_times (·.is_completed) (·.completed_at)
          (chapter_sections normKey blocks completions cblk)))
    ∧ ((build_chapter_data normKey blocks completions cid cblk).is_completed = true →
        (build_chapter_data normKey blocks completions cid cblk).completed_at =
          latestOf ((chapter_sections normKey blocks completions cblk).filterMap
            (·.completed_at)))
    ∧ (∀ m : Nat,
        (build_chapter_data normKey blocks completions cid cblk).completed_at = some m →
        m ∈ completed_times (·.is_completed) (·.completed_at)
            (chapter_sections normKey blocks completions cblk)
        ∧ ∀ x ∈ completed_times (·.is_completed) (·.completed_at)
            (chapter_sections normKey blocks completions cblk), x ≤ m) := by
  have hsec := build_section_completed_at_eq normKey blocks completions sid sblk
  have hch := build_chapter_completed_at_eq normKey blocks completions cid cblk
  refine ⟨hsec, ?_, ?_, hch, ?_, ?_⟩
  · intro h
    rcases (build_section_is_completed_iff normKey blocks completions
      sid sblk).mp h with ⟨_, hall⟩
    rw [hsec]
    congr 1
    apply List.filterMap_congr
    intro u hu
    simp [hall u hu]
  · intro m hm
    rw [hsec] at hm
    exact latestOf_spec hm
  · intro h
    rcases (build_chapter_is_completed_iff normKey blocks completions
      cid cblk).mp h with ⟨_, hall⟩
    rw [hch]
    congr 1
    apply List.filterMap_congr
    intro s hs
    simp [hall s hs]
  · intro m hm
    rw [hch] at hm
    exact latestOf_spec hm

theorem completed_at_latest_rule_witness :
    (build_section_data (fun _ => none) exBlocksC3 exCompsC3 "sd" exSecDone).is_completed = true
    ∧ (build_section_data (fun _ => none) exBlocksC3 exCompsC3 "sd" exSecDone).completed_at =
        latestOf ((section_units (fun _ => none) exBlocksC3 exCompsC3 exSecDone).filterMap
          (·.completed_at))
    ∧ (build_section_data (fun _ => none) exBlocksC3 exCompsC3 "sd" exSecDone).completed_at = some 5
    ∧ 5 ∈ completed_times (·.is_completed) (·.completed_at)
        (section_units (fun _ => none) exBlocksC3 exCompsC3 exSecDone) :=
  ⟨by decide,
   (completed_at_latest_rule (fun _ => none) exBlocksC3 exCompsC3 "sd" "ch"
     exSecDone exChapMix).2.1 (by decide),
   by decide,
   ((completed_at_latest_rule (fun _ => none) exBlocksC3 exCompsC3 "sd" "ch"
     exSecDone exChapMix).2.2.1 5 (by decide)).1⟩

/-! ### C9: a tree where every leaf unit is complete -/

/-- The root course block of the C9 scenario. -/
def exCourseBlk : Block :=
  { blockType := "course", displayName := "Course", children := ["c1", "c2"],
    complete := false }

/-- A chapter with one fully completed section. -/
def exChapGood : Block :=
  { blockType := "chapter", displayName := "C1", children := ["s1"],
    complete := false }

/-- The section holding the single completed unit. -/
def exSecOne : Block :=
  { blockType := "sequential", displayName := "S1", children := ["uc"],
    complete := false }

/-- A unit completed via the inline flag. -/
def exuDone : Block :=
  { blockType := "vertical", displayName := "UD", children := [],
    complete := true }

/-- A chapter with no sections at all. -/
def exChapNoSec : Block :=
  { blockType := "chapter", displayName := "C2", children := [],
    complete := false }

/-- The C9 block tree: non-empty, every leaf unit complete, but one chapter
has no sections. -/
def exBDC9 : BlocksData :=
  { blocks := [("root", exCourseBlk), ("c1", exChapGood), ("c2", exChapNoSec),
      ("s1", exSecOne), ("uc", exuDone)],
    root := some "root" }

/-- C9 counterexample: in this non-empty tree every leaf unit is complete
(the rollup's nested unit flags are all `true`), yet the chapter without
sections has `is_completed = false`, so it is not the case that every chapter
is completed. -/
theorem all_units_complete_counterexample :
    (exBDC9.blocks.lookup "root").isSome = true
    ∧ ((build_badge_data (fun _ => none) exBDC9 []).chapters.map
        fun c => c.sections.map fun s => s.units.map (·.is_completed)) =
        [[[true]], []]
    ∧ ((build_badge_data (fun _ => none) exBDC9 []).chapters.map
        (·.is_completed)) = [true, false] := by
  decide

theorem pyRound1_hundred : pyRound1 100 = 100 := by
  have h1 : ((100 : ℚ) * 10) = 1000 := by norm_num
  have h2 : pyRoundInt 1000 = 1000 := by
    simp only [pyRoundInt]
    norm_num
  rw [pyRound1, h1, h2]
  norm_num

theorem build_chapter_data_sections (normKey : String → Option String)
    (blocks : List (String × Block)) (completions : List (String × Nat))
    (cid : String) (cblk : Block) :
    (build_chapter_data normKey blocks completions cid cblk).sections =
      chapter_sections normKey blocks completions cblk := rfl

theorem build_section_data_counts (normKey : String → Option String)
    (blocks : List (String × Block)) (completions : List (String × Nat))
    (sid : String) (sblk : Block) :
    (build_section_data normKey blocks completions sid sblk).total_units =
      (section_units normKey blocks completions sblk).length
    ∧ (build_section_data normKey blocks completions sid sblk).completed_units =
      ((section_units normKey blocks completions sblk).filter
        (·.is_completed)).length := ⟨rfl, rfl⟩

theorem pct_self (t : Nat) (h : 0 < t) :
    pyRound1 ((t : ℚ) / (t : ℚ) * 100) = 100 := by
  rw [div_self (Nat.cast_ne_zero.mpr (Nat.pos_iff_ne_zero.mp h)), one_mul,
    pyRound1_hundred]

/-- C9 amended: for every block tree with a valid root, at least one
qualifying chapter, at least one qualifying section in every chapter, at
least one qualifying unit in every section, and every qualifying leaf unit
completed, the rollup reports `completion_percentage = 100.0` and every
chapter and every section `is_completed = true`.  (The original claim is
false when a chapter has no sections or a section no units: such a node is
never completed, see the counterexample.) -/
theorem all_units_complete_amended (normKey : String → Option String)
    (completions : List (String × Nat)) (blocks : List (String × Block))
    (rootId : String) (rootBlock : Block)
    (hroot : blocks.lookup rootId = some rootBlock)
    (hchap : qualifyingChildren blocks "chapter" rootBlock.children ≠ [])
    (hsec : ∀ p ∈ qualifyingChildren blocks "chapter" rootBlock.children,
        qualifyingChildren blocks "sequential" p.2.children ≠ [])
    (hunit : ∀ p ∈ qualifyingChildren blocks "chapter" rootBlock.children,
        ∀ q ∈ qualifyingChildren blocks "sequential" p.2.children,
        qualifyingChildren blocks "vertical" q.2.children ≠ []
        ∧ ∀ u ∈ qualifyingChildren blocks "vertical" q.2.children,
            (build_unit_data normKey completions u.1 u.2).is_completed = true) :
    (build_badge_data normKey ⟨blocks, some rootId⟩ completions).summary.completion_percentage = 100
    ∧ ∀ c ∈ (build_badge_data normKey ⟨blocks, some rootId⟩ completions).chapters,
        c.is_completed = true ∧ ∀ s ∈ c.sections, s.is_completed = true := by
  have hsection : ∀ p ∈ qualifyingChildren blocks "chapter" rootBlock.children,
      ∀ q ∈ qualifyingChildren blocks "sequential" p.2.children,
      (build_section_data normKey blocks completions q.1 q.2).is_completed = true
      ∧ (build_section_data normKey blocks completions q.1 q.2).completed_units =
          (build_section_data normKey blocks completions q.1 q.2).total_units
      ∧ 0 < (build_section_data normKey blocks completions q.1 q.2).total_units := by
    intro p hp q hq
    rcases hunit p hp q hq with ⟨hne, hall⟩
    have hune : section_units normKey blocks completions q.2 ≠ [] := by
      rw [section_units]
      intro hemp
      exact hne (List.map_eq_nil_iff.mp hemp)
    have hallu : ∀ u ∈ section_units normKey blocks completions q.2,
        u.is_completed = true := by
      intro u hu
      rw [section_units] at hu
      rcases List.mem_map.mp hu with ⟨w, hw, rfl⟩
      exact hall w hw
    refine ⟨(build_section_is_completed_iff _ _ _ _ _).mpr ⟨hune, hallu⟩, ?_, ?_⟩
    · rw [(build_section_data_counts _ _ _ _ _).1,
        (build_section_data_counts _ _ _ _ _).2]
      exact (filter_length_eq_iff _ _).mpr hallu
    · rw [(build_section_data_counts _ _ _ _ _).1]
      exact List.length_pos.mpr hune
  have hchapter : ∀ p ∈ qualifyingChildren blocks "chapter" rootBlock.children,
      (build_chapter_data normKey blocks completions p.1 p.2).is_completed = true := by
    intro p hp
    apply (build_chapter_is_completed_iff _ _ _ _ _).mpr
    constructor
    · rw [chapter_sections]
      intro hemp
      exact hsec p hp (List.map_eq_nil_iff.mp hemp)
    · intro s hs
      rw [chapter_sections] at hs
      rcases List.mem_map.mp hs with ⟨q, hq, rfl⟩
      exact (hsection p hp q hq).1
  have hsections_all : ∀ p ∈ qualifyingChildren blocks "chapter" rootBlock.children,
      ∀ s ∈ chapter_sections normKey blocks completions p.2,
        s.is_completed = true := by
    intro p hp s hs
    rw [chapter_sections] at hs
    rcases List.mem_map.mp hs with ⟨q, hq, rfl⟩
    exact (hsection p hp q hq).1
  constructor
  · -- completion_percentage = 100
    simp only [build_badge_data, hroot]
    have hTC :
        ((qualifyingChildren blocks "chapter" rootBlock.children).map
          (fun p => build_chapter_data normKey blocks completions p.1 p.2)).map
            (fun c => (c.sections.map (·.completed_units)).sum) =
        ((qualifyingChildren blocks "chapter" rootBlock.children).map
          (fun p => build_chapter_data normKey blocks completions p.1 p.2)).map
            (fun c => (c.sections.map (·.total_units)).sum) := by
      rw [List.map_map, List.map_map]
      apply List.map_congr_left
      intro p hp
      simp only [Function.comp, build_chapter_data_sections, chapter_sections,
        List.map_map]
      apply congrArg List.sum
      apply List.map_congr_left
      intro q hq
      simp only [Function.comp]
      exact (hsection p hp q hq).2.1
    have hTpos : 0 <
        (((qualifyingChildren blocks "chapter" rootBlock.children).map
          (fun p => build_chapter_data normKey blocks completions p.1 p.2)).map
            (fun c => (c.sections.map (·.total_units)).sum)).sum := by
      rcases List.exists_mem_of_ne_nil _ hchap with ⟨p₀, hp₀⟩
      rcases List.exists_mem_of_ne_nil _ (hsec p₀ hp₀) with ⟨q₀, hq₀⟩
      rw [Nat.pos_iff_ne_zero]
      intro hz
      rw [List.sum_eq_zero_iff] at hz
      have hmem : ((build_chapter_data normKey blocks completions p₀.1 p₀.2).sections.map
          (·.total_units)).sum = 0 := by
        apply hz
        apply List.mem_map_of_mem
        exact List.mem_map_of_mem _ hp₀
      rw [List.sum_eq_zero_iff] at hmem
      have : (build_section_data normKey blocks completions q₀.1 q₀.2).total_units = 0 := by
        apply hmem
        apply List.mem_map_of_mem
        rw [build_chapter_data_sections, chapter_sections]
        exact List.mem_map_of_mem _ hq₀
      have hpos := (hsection p₀ hp₀ q₀ hq₀).2.2
      omega
    rw [hTC, if_pos hTpos]
    exact pct_self _ hTpos
  · intro c hc
    simp only [build_badge_data, hroot] at hc
    rcases List.mem_map.mp hc with ⟨p, hp, rfl⟩
    refine ⟨hchapter p hp, ?_⟩
    rw [build_chapter_data_sections]
    exact hsections_all p hp

/-- A root whose every chapter/section/unit chain is complete. -/
def exCourseGood : Block :=
  { blockType := "course", displayName := "Course", children := ["c1"],
    complete := false }

/-- The block map of the fully completed C9 witness tree. -/
def exBlocksC9good : List (String × Block) :=
  [("root", exCourseGood), ("c1", exChapGood), ("s1", exSecOne),
   ("uc", exuDone)]

theorem all_units_complete_amended_witness :
    (build_badge_data (fun _ => none) ⟨exBlocksC9good, some "root"⟩
      []).summary.completion_percentage = 100
    ∧ (build_chapter_data (fun _ => none) exBlocksC9good [] "c1"
        exChapGood).is_completed = true
    ∧ (build_section_data (fun _ => none) exBlocksC9good [] "s1"
        exSecOne).is_completed = true := by
  have h := all_units_complete_amended (fun _ => none) [] exBlocksC9good
    "root" exCourseGood (by decide) (by decide) (by decide) (by decide)
  exact ⟨h.1,
    (h.2 (build_chapter_data (fun _ => none) exBlocksC9good [] "c1" exChapGood)
      (by decide)).1,
    (h.2 (build_chapter_data (fun _ => none) exBlocksC9good [] "c1" exChapGood)
      (by decide)).2
      (build_section_data (fun _ => none) exBlocksC9good [] "s1" exSecOne)
      (by decide)⟩

/-! ### Helper lemmas for result-set limiting -/

theorem countP_one_decomp {α : Type} (p : α → Bool) :
    ∀ l : List α, l.countP p = 1 →
    ∃ l₁ a l₂, l = l₁ ++ a :: l₂ ∧ p a = true
      ∧ l₁.countP p = 0 ∧ l₂.countP p = 0
  | [], h => by simp [List.countP_nil] at h
  | x :: xs, h => by
    by_cases hx : p x = true
    · rw [List.countP_cons_of_pos p xs hx] at h
      exact ⟨[], x, xs, rfl, hx, List.countP_nil p, by omega⟩
    · rw [List.countP_cons_of_neg p xs hx] at h
      rcases countP_one_decomp p xs h with ⟨l₁, a, l₂, rfl, hpa, h1, h2⟩
      exact ⟨x :: l₁, a, l₂, rfl, hpa,
        by rw [List.countP_cons_of_neg p l₁ hx]; exact h1, h2⟩

theorem foldl_last_keep :
    ∀ (l : List (Nat × RankEntry)),
    (∀ e ∈ l, e.2.is_current_user = false) →
    ∀ acc : Option (Nat × RankEntry),
      l.foldl (fun acc e => if e.2.is_current_user then some e else acc) acc = acc
  | [], _, _ => rfl
  | e :: xs, h, acc => by
    rw [List.foldl_cons, if_neg (by rw [h e (List.mem_cons_self e xs)]; simp)]
    exact foldl_last_keep xs (fun x hx => h x (List.mem_cons_of_mem e hx)) acc

theorem last_current_user_eq (l₁ l₂ : List (Nat × RankEntry))
    (c : Nat × RankEntry) (hc : c.2.is_current_user = true)
    (h2 : ∀ e ∈ l₂, e.2.is_current_user = false) :
    last_current_user (l₁ ++ c :: l₂) = some c := by
  rw [last_current_user, List.foldl_append, List.foldl_cons, if_pos hc]
  exact foldl_last_keep l₂ h2 (some c)

theorem getD_append_length {α : Type} :
    ∀ (l₁ : List α) (c : α) (l₂ : List α) (d : α),
    (l₁ ++ c :: l₂).getD l₁.length d = c
  | [], _, _, _ => rfl
  | x :: xs, c, l₂, d => by
    simpa using getD_append_length xs c l₂ d

/-- C6 (result-set limiting): `top_students` is the first
`min(limit, total)` entries of the full ranked list; when the requesting
user's entry — assumed unique — falls outside that prefix (its full-list
rank exceeds `limit`), `current_user_entry` is that entry, rank included;
when it falls inside the prefix, `current_user_entry` is `none`. -/
theorem result_limiting_current_user (l : List RankEntry) (limit : Nat)
    (huniq : l.countP (·.is_current_user) = 1) :
    (limit_and_current (ordinal_rank l) limit).1 = (ordinal_rank l).take limit
    ∧ ((limit_and_current (ordinal_rank l) limit).1).length = min limit l.length
    ∧ ∀ (rk : Nat) (e : RankEntry), (rk, e) ∈ ordinal_rank l →
        e.is_current_user = true →
        ((limit < rk →
            (limit_and_current (ordinal_rank l) limit).2 = some (rk, e))
         ∧ (rk ≤ limit →
            (limit_and_current (ordinal_rank l) limit).2 = none)) := by
  have hcnt : (ordinal_rank l).countP (fun e => e.2.is_current_user) = 1 := by
    have h1 : (stableSort oLe l).countP (·.is_current_user) = 1 := by
      rw [(stableSort_perm oLe l).countP_eq]
      exact huniq
    have h2 := List.countP_map (·.is_current_user) Prod.snd (ordinal_rank l)
    rw [ordinal_rank_map_snd] at h2
    rw [← h1]
    exact h2.symm
  rcases countP_one_decomp _ _ hcnt with ⟨L₁, c, L₂, hdec, hc, h1, h2⟩
  refine ⟨rfl, ?_, ?_⟩
  · show ((ordinal_rank l).take limit).length = min limit l.length
    rw [List.length_take, ordinal_rank_length]
  · intro rk e hmem hflag
    have hceq : (rk, e) = c := by
      rw [hdec] at hmem
      rcases List.mem_append.mp hmem with hm | hm
      · exact absurd (by simpa using hflag)
          (List.countP_eq_zero.mp h1 _ hm)
      · rcases List.mem_cons.mp hm with h | hm
        · exact h
        · exact absurd (by simpa using hflag)
            (List.countP_eq_zero.mp h2 _ hm)
    have hL1lt : L₁.length < (ordinal_rank l).length := by
      rw [hdec, List.length_append, List.length_cons]
      omega
    have hrkpos : rankAt (ordinal_rank l) L₁.length = 1 + L₁.length := by
      apply rank_from_rankAt
      rw [← rank_from_length (stableSort oLe l) 1]
      exact hL1lt
    have hrkval : rankAt (ordinal_rank l) L₁.length = c.1 := by
      rw [rankAt, hdec, List.map_append, List.map_cons]
      have hlm : (L₁.map Prod.fst).length = L₁.length := List.length_map L₁ _
      rw [← hlm]
      exact getD_append_length (L₁.map Prod.fst) c.1 (L₂.map Prod.fst) 0
    have hrk : rk = L₁.length + 1 := by
      have : c.1 = 1 + L₁.length := by rw [← hrkval, hrkpos]
      rw [← hceq] at this
      simpa [Nat.add_comm] using this
    constructor
    · intro hlim
      have hle : limit ≤ L₁.length := by omega
      have htake : (ordinal_rank l).take limit = L₁.take limit := by
        rw [hdec]
        exact List.take_append_of_le_length hle
      have hany : ((ordinal_rank l).take limit).any
          (fun e => e.2.is_current_user) = false := by
        rw [List.any_eq_false]
        intro x hx
        rw [htake] at hx
        exact List.countP_eq_zero.mp h1 x (List.take_subset limit L₁ hx)
      have hlast : last_current_user (ordinal_rank l) = some c := by
        rw [hdec]
        exact last_current_user_eq L₁ L₂ c hc
          (fun x hx => by
            have := List.countP_eq_zero.mp h2 x hx
            simpa using this)
      show (if ((ordinal_rank l).take limit).any (fun e => e.2.is_current_user)
          then none else last_current_user (ordinal_rank l)) = some (rk, e)
      rw [hany, hlast, hceq]
      rfl
    · intro hlim
      have hlt : L₁.length < limit := by omega
      have hctake : c ∈ (ordinal_rank l).take limit := by
        rw [hdec, List.take_append_eq_append_take]
        apply List.mem_append_right
        have hk : limit - L₁.length = (limit - L₁.length - 1) + 1 := by omega
        rw [hk, List.take_succ_cons]
        exact List.mem_cons_self c _
      have hany : ((ordinal_rank l).take limit).any
          (fun e => e.2.is_current_user) = true := by
        rw [List.any_eq_true]
        exact ⟨c, hctake, hc⟩
      show (if ((ordinal_rank l).take limit).any (fun e => e.2.is_current_user)
          then none else last_current_user (ordinal_rank l)) = none
      rw [hany]
      rfl

/-- The current user's ranked entry in the `exC2` scenario (rank 1). -/
def exRE3 : RankEntry :=
  { user_id := 3, username := "u3", full_name := "U3", score := 90,
    tieTime := 5, is_current_user := true }

theorem result_limiting_current_user_witness :
    exC2.countP (·.is_current_user) = 1
    ∧ (limit_and_current (ordinal_rank exC2) 0).2 = some (1, exRE3)
    ∧ (limit_and_current (ordinal_rank exC2) 2).2 = none
    ∧ (limit_and_current (ordinal_rank exC2) 2).1 = (ordinal_rank exC2).take 2
    ∧ (limit_and_current (ordinal_rank exC2) 2).1.length = min 2 exC2.length :=
  ⟨by decide,
   ((result_limiting_current_user exC2 0 (by decide)).2.2 1 exRE3 (by decide)
     rfl).1 (by decide),
   ((result_limiting_current_user exC2 2 (by decide)).2.2 1 exRE3 (by decide)
     rfl).2 (by decide),
   (result_limiting_current_user exC2 2 (by decide)).1,
   (result_limiting_current_user exC2 2 (by decide)).2.1⟩

/-! ### Helper lemmas for the summary statistics -/

theorem foldl_min_le_self {α : Type} [LinearOrder α] :
    ∀ (l : List α) (a : α), l.foldl min a ≤ a
  | [], a => le_refl a
  | x :: xs, a => le_trans (foldl_min_le_self xs (min a x)) (min_le_left a x)

theorem foldl_min_mem {α : Type} [LinearOrder α] :
    ∀ (l : List α) (a : α), l.foldl min a = a ∨ l.foldl min a ∈ l
  | [], _ => Or.inl rfl
  | x :: xs, a => by
    rcases foldl_min_mem xs (min a x) with h | h
    · rcases min_choice a x with hm | hm
      · left
        rw [List.foldl_cons, h, hm]
      · right
        rw [List.foldl_cons, h, hm]
        exact List.mem_cons_self x xs
    · right
      rw [List.foldl_cons]
      exact List.mem_cons_of_mem x h

theorem foldl_min_le_mem {α : Type} [LinearOrder α] :
    ∀ (l : List α) (a x : α), x ∈ l → l.foldl min a ≤ x
  | [], _, _, hx => absurd hx (List.not_mem_nil _)
  | y :: ys, a, x, hx => by
    rcases List.mem_cons.mp hx with rfl | hx
    · exact le_trans (foldl_min_le_self ys (min a x)) (min_le_right a x)
    · exact foldl_min_le_mem ys (min a y) x hx

theorem pymax_mem {l : List ℚ} (h : l ≠ []) : pymax l ∈ l := by
  cases l with
  | nil => exact absurd rfl h
  | cons x xs =>
    rcases foldl_max_mem xs x with hm | hm
    · rw [pymax, hm]
      exact List.mem_cons_self x xs
    · rw [pymax]
      exact List.mem_cons_of_mem x hm

theorem le_pymax {l : List ℚ} {x : ℚ} (hx : x ∈ l) : x ≤ pymax l := by
  cases l with
  | nil => exact absurd hx (List.not_mem_nil x)
  | cons y ys =>
    rcases List.mem_cons.mp hx with rfl | hx
    · exact foldl_max_le_self ys x
    · exact mem_le_foldl_max ys y x hx

theorem pymin_mem {l : List ℚ} (h : l ≠ []) : pymin l ∈ l := by
  cases l with
  | nil => exact absurd rfl h
  | cons x xs =>
    rcases foldl_min_mem xs x with hm | hm
    · rw [pymin, hm]
      exact List.mem_cons_self x xs
    · rw [pymin]
      exact List.mem_cons_of_mem x hm

theorem pymin_le {l : List ℚ} {x : ℚ} (hx : x ∈ l) : pymin l ≤ x := by
  cases l with
  | nil => exact absurd hx (List.not_mem_nil x)
  | cons y ys =>
    rcases List.mem_cons.mp hx with rfl | hx
    · exact foldl_min_le_self ys x
    · exact foldl_min_le_mem ys y x hx

theorem grades_scores_perm (students : List StudentG) :
    ((stableSort oLe (students.map grade_entry)).map (·.score)).Perm
      (students.map fun s => (grade_entry s).score) := by
  have h := (stableSort_perm oLe (students.map grade_entry)).map (·.score)
  rw [List.map_map] at h
  exact h

/-- C5 (summary statistics over the full pre-truncation set): in the
top-grades response, `total_students` is the number of enrolled students
(every enrolled student contributes a row, score 0 without a grade record),
`top_count` is the length of the truncated `top_students` list, which is the
`min(limit, total)`-prefix of the full ranked list, while `avg_grade` is the
(rounded) mean over every enrolled student's grade and `max_grade` /
`min_grade` are the maximum/minimum over that same full set, not over the
displayed top-N. -/
theorem top_grades_summary_full_set (students : List StudentG) (limit : Nat) :
    (top_grades_response students limit).1.total_students = students.length
    ∧ (top_grades_response students limit).1.top_count =
        (top_grades_response students limit).2.1.length
    ∧ (top_grades_response students limit).2.1.length = min limit students.length
    ∧ (top_grades_response students limit).2.1 =
        (ordinal_rank (students.map grade_entry)).take limit
    ∧ (students ≠ [] →
        (top_grades_response students limit).1.avg_grade =
          pyRound1 ((students.map fun s => (grade_entry s).score).sum /
            (students.length : ℚ)))
    ∧ (students = [] → (top_grades_response students limit).1.avg_grade = 0)
    ∧ (students ≠ [] →
        (top_grades_response students limit).1.max_grade ∈
            students.map (fun s => (grade_entry s).score)
        ∧ ∀ x ∈ students.map (fun s => (grade_entry s).score),
            x ≤ (top_grades_response students limit).1.max_grade)
    ∧ (students ≠ [] →
        (top_grades_response students limit).1.min_grade ∈
            students.map (fun s => (grade_entry s).score)
        ∧ ∀ x ∈ students.map (fun s => (grade_entry s).score),
            (top_grades_response students limit).1.min_grade ≤ x) := by
  have hperm := grades_scores_perm students
  have hlen : ((stableSort oLe (students.map grade_entry)).map (·.score)).length
      = students.length := by
    rw [List.length_map, (stableSort_perm oLe (students.map grade_entry)).length_eq,
      List.length_map]
  refine ⟨rfl, rfl, ?_, rfl, ?_, ?_, ?_, ?_⟩
  · show ((rank_from 1 (stableSort oLe (students.map grade_entry))).take
        limit).length = min limit students.length
    rw [List.length_take, rank_from_length,
      (stableSort_perm oLe (students.map grade_entry)).length_eq, List.length_map]
  · intro hne
    have hne' : (stableSort oLe (students.map grade_entry)).map (·.score) ≠ [] := by
      rw [← List.length_pos, hlen, List.length_pos]
      exact hne
    show (if (stableSort oLe (students.map grade_entry)).map (·.score) ≠ []
        then pyRound1 (((stableSort oLe (students.map grade_entry)).map
          (·.score)).sum /
          (((stableSort oLe (students.map grade_entry)).map (·.score)).length : ℚ))
        else 0) = _
    rw [if_pos hne', hperm.sum_eq, hlen]
  · intro hnil
    subst hnil
    rfl
  · intro hne
    constructor
    · exact hperm.mem_iff.mp (pymax_mem (by
        rw [← List.length_pos, hlen, List.length_pos]
        exact hne))
    · intro x hx
      exact le_pymax (hperm.mem_iff.mpr hx)
  · intro hne
    constructor
    · exact hperm.mem_iff.mp (pymin_mem (by
        rw [← List.length_pos, hlen, List.length_pos]
        exact hne))
    · intro x hx
      exact pymin_le (hperm.mem_iff.mpr hx)

/-- Two enrolled students, neither holding a grade record. -/
def exS5 : List StudentG := [exSG2, exSG3]

theorem top_grades_summary_full_set_witness :
    exS5 ≠ []
    ∧ (top_grades_response exS5 1).1.total_students = exS5.length
    ∧ (top_grades_response exS5 1).2.1.length = min 1 exS5.length
    ∧ (top_grades_response exS5 1).1.avg_grade =
        pyRound1 ((exS5.map fun s => (grade_entry s).score).sum /
          (exS5.length : ℚ))
    ∧ (top_grades_response exS5 1).1.max_grade ∈
        exS5.map (fun s => (grade_entry s).score) :=
  ⟨by decide,
   (top_grades_summary_full_set exS5 1).1,
   (top_grades_summary_full_set exS5 1).2.2.1,
   (top_grades_summary_full_set exS5 1).2.2.2.2.1 (by decide),
   ((top_grades_summary_full_set exS5 1).2.2.2.2.2.2.1 (by decide)).1⟩

theorem pyRoundInt_nonneg {q : ℚ} (h : 0 ≤ q) : 0 ≤ pyRoundInt q := by
  have hf : (0 : ℤ) ≤ ⌊q⌋ := Int.le_floor.mpr (by exact_mod_cast h)
  simp only [pyRoundInt]
  split_ifs <;> omega

theorem floor_add_one_le_ceil {q : ℚ} (h : ¬(q - ⌊q⌋ < 1/2)) :
    ⌊q⌋ + 1 ≤ ⌈q⌉ := by
  have h2 : (1 : ℚ)/2 ≤ q - ⌊q⌋ := not_lt.mp h
  have hlt : (⌊q⌋ : ℚ) < q := by linarith
  have hlc : (⌊q⌋ : ℚ) < (⌈q⌉ : ℚ) := lt_of_lt_of_le hlt (Int.le_ceil q)
  have : ⌊q⌋ < ⌈q⌉ := by exact_mod_cast hlc
  omega

theorem pyRoundInt_le_ceil (q : ℚ) : pyRoundInt q ≤ ⌈q⌉ := by
  have hfc := Int.floor_le_ceil q
  simp only [pyRoundInt]
  split_ifs with h1 h2 h3
  · exact hfc
  · exact floor_add_one_le_ceil h1
  · exact hfc
  · exact floor_add_one_le_ceil h1

theorem pyRound1_bounds {q : ℚ} (h0 : 0 ≤ q) (h10 : q ≤ 10) :
    0 ≤ pyRound1 q ∧ pyRound1 q ≤ 10 := by
  have ha : (0 : ℚ) ≤ q * 10 := by linarith
  have hb : q * 10 ≤ 100 := by linarith
  have h1 : (0 : ℤ) ≤ pyRoundInt (q * 10) := pyRoundInt_nonneg ha
  have h2 : pyRoundInt (q * 10) ≤ 100 := by
    refine le_trans (pyRoundInt_le_ceil _) ?_
    exact Int.ceil_le.mpr (by exact_mod_cast hb)
  constructor
  · rw [pyRound1]
    apply div_nonneg _ (by norm_num : (0 : ℚ) ≤ 10)
    exact_mod_cast h1
  · rw [pyRound1, div_le_iff₀ (by norm_num : (0 : ℚ) < 10)]
    have hcast : ((pyRoundInt (q * 10) : ℤ) : ℚ) ≤ (100 : ℚ) := by
      exact_mod_cast h2
    linarith

theorem list_sum_nonneg : ∀ l : List ℚ, (∀ x ∈ l, 0 ≤ x) → 0 ≤ l.sum
  | [], _ => le_refl 0
  | x :: xs, h => by
    rw [List.sum_cons]
    have hs := list_sum_nonneg xs fun y hy => h y (List.mem_cons_of_mem x hy)
    have hx := h x (List.mem_cons_self x xs)
    linarith

theorem list_sum_le : ∀ (l : List ℚ) (c : ℚ), (∀ x ∈ l, x ≤ c) →
    l.sum ≤ (l.length : ℚ) * c
  | [], c, _ => by simp
  | x :: xs, c, h => by
    rw [List.sum_cons, List.length_cons]
    have hs := list_sum_le xs c fun y hy => h y (List.mem_cons_of_mem x hy)
    have hx := h x (List.mem_cons_self x xs)
    have hexp : ((xs.length + 1 : ℕ) : ℚ) * c = (xs.length : ℚ) * c + c := by
      push_cast
      ring
    rw [hexp]
    linarith

/-- C10 (implicit grade-scale transform): the top-grades endpoint multiplies
the persisted normalized grade by 10, not 100 — a student with a nonzero
`percent_grade` reports `round(percent_grade * 10, 1)` while a missing
record or a zero `percent_grade` reports `0.0`; hence for persisted grades
in `[0, 1]` every reported score, and the derived `avg_grade`, `max_grade`
and `min_grade`, lies in `[0, 10]` despite the `grade_percentage` field
name. -/
theorem grade_scale_transform_bounds (students : List StudentG) (limit : Nat)
    (hg : ∀ s ∈ students, ∀ g : GradeRecord, s.grade = some g →
      0 ≤ g.percent_grade ∧ g.percent_grade ≤ 1) :
    (∀ (s : StudentG) (g : GradeRecord), s.grade = some g →
        g.percent_grade ≠ 0 →
        (grade_entry s).score = pyRound1 (g.percent_grade * 10))
    ∧ (∀ s : StudentG, s.grade = none → (grade_entry s).score = 0)
    ∧ (∀ (s : StudentG) (g : GradeRecord), s.grade = some g →
        g.percent_grade = 0 → (grade_entry s).score = 0)
    ∧ (∀ s ∈ students, 0 ≤ (grade_entry s).score ∧ (grade_entry s).score ≤ 10)
    ∧ (∀ p ∈ (top_grades_response students limit).2.1,
        0 ≤ p.2.score ∧ p.2.score ≤ 10)
    ∧ (0 ≤ (top_grades_response students limit).1.avg_grade
        ∧ (top_grades_response students limit).1.avg_grade ≤ 10)
    ∧ (0 ≤ (top_grades_response students limit).1.max_grade
        ∧ (top_grades_response students limit).1.max_grade ≤ 10)
    ∧ (0 ≤ (top_grades_response students limit).1.min_grade
        ∧ (top_grades_response students limit).1.min_grade ≤ 10) := by
  have hsb : ∀ s ∈ students, 0 ≤ (grade_entry s).score
      ∧ (grade_entry s).score ≤ 10 := by
    intro s hs
    rcases hgr : s.grade with _ | g
    · simp [grade_entry, hgr]
    · rcases hg s hs g hgr with ⟨hg0, hg1⟩
      by_cases hz : g.percent_grade = 0
      · simp [grade_entry, hgr, grade_percent_of, hz]
      · have heq : (grade_entry s).score = pyRound1 (g.percent_grade * 10) := by
          simp [grade_entry, hgr, grade_percent_of, hz]
        rw [heq]
        exact pyRound1_bounds (by linarith) (by linarith)
  have hall : ∀ x ∈ (stableSort oLe (students.map grade_entry)).map (·.score),
      0 ≤ x ∧ x ≤ 10 := by
    intro x hx
    have hx' := (grades_scores_perm students).mem_iff.mp hx
    rcases List.mem_map.mp hx' with ⟨s, hs, rfl⟩
    exact hsb s hs
  refine ⟨?_, ?_, ?_, hsb, ?_, ?_, ?_, ?_⟩
  · intro s g hgr hz
    simp [grade_entry, hgr, grade_percent_of, hz]
  · intro s hgr
    simp [grade_entry, hgr]
  · intro s g hgr hz
    simp [grade_entry, hgr, grade_percent_of, hz]
  · intro p hp
    have hp1 : p ∈ rank_from 1 (stableSort oLe (students.map grade_entry)) :=
      List.take_subset limit _ hp
    have hp2 : p.2 ∈ (rank_from 1
        (stableSort oLe (students.map grade_entry))).map Prod.snd :=
      List.mem_map_of_mem Prod.snd hp1
    rw [rank_from_map_snd] at hp2
    exact hall p.2.score (List.mem_map_of_mem _ hp2)
  · have havg : (top_grades_response students limit).1.avg_grade =
        (if (stableSort oLe (students.map grade_entry)).map (·.score) ≠ []
         then pyRound1 (((stableSort oLe (students.map grade_entry)).map
           (·.score)).sum /
           (((stableSort oLe (students.map grade_entry)).map
             (·.score)).length : ℚ))
         else 0) := rfl
    rw [havg]
    by_cases hne : (stableSort oLe (students.map grade_entry)).map (·.score) ≠ []
    · rw [if_pos hne]
      have hlp : 0 < (((stableSort oLe (students.map grade_entry)).map
          (·.score)).length : ℚ) := by
        rw [Nat.cast_pos, List.length_pos]
        exact hne
      have hsum0 : 0 ≤ ((stableSort oLe (students.map grade_entry)).map
          (·.score)).sum :=
        list_sum_nonneg _ fun x hx => (hall x hx).1
      have hsum10 : ((stableSort oLe (students.map grade_entry)).map
          (·.score)).sum ≤
          ((((stableSort oLe (students.map grade_entry)).map
            (·.score)).length : ℚ)) * 10 :=
        list_sum_le _ 10 fun x hx => (hall x hx).2
      apply pyRound1_bounds
      · exact div_nonneg hsum0 (le_of_lt hlp)
      · rw [div_le_iff₀ hlp]
        linarith
    · rw [if_neg hne]
      norm_num
  · show 0 ≤ pymax ((stableSort oLe (students.map grade_entry)).map (·.score))
        ∧ pymax ((stableSort oLe (students.map grade_entry)).map (·.score)) ≤ 10
    by_cases hne : (stableSort oLe (students.map grade_entry)).map (·.score) = []
    · rw [hne]
      norm_num [pymax]
    · exact hall _ (pymax_mem hne)
  · show 0 ≤ pymin ((stableSort oLe (students.map grade_entry)).map (·.score))
        ∧ pymin ((stableSort oLe (students.map grade_entry)).map (·.score)) ≤ 10
    by_cases hne : (stableSort oLe (students.map grade_entry)).map (·.score) = []
    · rw [hne]
      norm_num [pymin]
    · exact hall _ (pymin_mem hne)

theorem grade_scale_transform_bounds_witness :
    (grade_entry exSG1).score = pyRound1 (exGR.percent_grade * 10)
    ∧ (grade_entry exSG2).score = 0
    ∧ 0 ≤ (top_grades_response exS5 1).1.avg_grade
    ∧ (top_grades_response exS5 1).1.max_grade ≤ 10 :=
  have h := grade_scale_transform_bounds exS5 1
    (by simp [exS5, exSG2, exSG3])
  ⟨h.1 exSG1 exGR rfl (by decide),
   h.2.1 exSG2 rfl,
   h.2.2.2.2.2.1.1,
   h.2.2.2.2.2.2.1.2⟩
